import Mathlib

/-!
Shallow embedding of the machine-communication and job-execution core of the
All4Laser controller front-end (Rust), together with proofs of the
specification claims about it.

Modelling conventions:
* Rust `f32`/`f64` values are modelled as `ℚ` where the code only performs
  field operations and comparisons (optimizer, override protocol, decoder),
  and as `ℝ` where the code computes square roots or trigonometric functions
  (motion-time estimation, geometric transform).  All concrete inputs used in
  the claims are exactly representable, so no rounding behaviour is involved.
* Rust `i32`/`u8` are modelled as `ℤ`/`ℕ`; Rust's `/` and `%` on `i32`
  truncate toward zero and are modelled with `Int.tdiv` / `Int.tmod`.
* Rust string slices are modelled as `List Char` (every string the decoder
  treats specially is ASCII, where Rust's byte indexing coincides with char
  indexing); `String` values are converted at the API boundary.  The helper
  functions below mirror the `str` methods the code uses, implemented by
  structural recursion so that concrete runs reduce in the kernel.
* Fallible Rust operations (`str::parse`) are modelled as `Option`-valued
  functions.
-/

namespace StringModel

/-- Character list of a string. -/
def chars (s : String) : List Char := s.data

/-- Model of Rust's `str::trim` (ASCII whitespace; the wire protocol is
ASCII-only). -/
def trimChars (l : List Char) : List Char :=
  ((l.dropWhile Char.isWhitespace).reverse.dropWhile Char.isWhitespace).reverse

/-- Model of Rust's `str::strip_prefix`. -/
def stripPfx (p l : List Char) : Option (List Char) :=
  if l.take p.length = p then some (l.drop p.length) else none

/-- Model of Rust's `str::contains(&str)`: substring search. -/
def containsSeq (p : List Char) : List Char → Bool
  | [] => p.isEmpty
  | c :: rest => if List.take p.length (c :: rest) = p then true else containsSeq p rest

/-- Model of Rust's `str::split(sep)`: nonempty list of the (possibly empty)
pieces between occurrences of `sep`. -/
def splitOnChar (sep : Char) : List Char → List (List Char)
  | [] => [[]]
  | c :: rest =>
    let r := splitOnChar sep rest
    if c = sep then [] :: r
    else
      match r with
      | [] => [[c]]
      | h :: t => (c :: h) :: t

/-- Value of a nonempty all-digit character list. -/
def digitsVal? (l : List Char) : Option ℕ :=
  if l ≠ [] ∧ l.all Char.isDigit then
    some (l.foldl (fun acc c => 10 * acc + (c.toNat - 48)) 0)
  else none

/-- Model of Rust's `str::parse::<i32>`: an optional single sign followed by
one or more ASCII digits, rejected on `i32` overflow. -/
def rustParseI32 (l : List Char) : Option ℤ :=
  let (sign, digits) : ℤ × List Char :=
    match l with
    | '-' :: rest => (-1, rest)
    | '+' :: rest => (1, rest)
    | _ => (1, l)
  match digitsVal? digits with
  | none => none
  | some v =>
    let n : ℤ := sign * v
    if -2147483648 ≤ n ∧ n ≤ 2147483647 then some n else none

/-- Decimal mantissa `digits [. digits]?` (at least one digit overall) read
exactly into `ℚ`. -/
def parseMantissa (l : List Char) : Option ℚ :=
  match splitOnChar '.' l with
  | [a] => (digitsVal? a).map (fun v => (v : ℚ))
  | [a, b] =>
    if a = [] ∧ b = [] then none
    else if (a = [] ∨ (digitsVal? a).isSome) ∧ (b = [] ∨ (digitsVal? b).isSome) then
      some (((digitsVal? a).getD 0 : ℚ) + ((digitsVal? b).getD 0 : ℚ) / 10 ^ b.length)
    else none
  | _ => none

/-- Model of Rust's `str::parse::<f32>` restricted to finite decimal
literals `[+-]? digits [. digits]? ([eE] [+-]? digits)?`, with the value
taken exactly in `ℚ` (the special forms `inf`/`nan` and rounding to binary
are not modelled; no claim depends on a parsed float value). -/
def rustParseF32 (l : List Char) : Option ℚ :=
  let (sign, rest) : ℚ × List Char :=
    match l with
    | '-' :: r => (-1, r)
    | '+' :: r => (1, r)
    | _ => (1, l)
  let me : List Char × Option (List Char) :=
    match splitOnChar 'e' rest with
    | [m, ex] => (m, some ex)
    | _ =>
      match splitOnChar 'E' rest with
      | [m, ex] => (m, some ex)
      | _ => (rest, none)
  match parseMantissa me.1, me.2 with
  | some mv, none => some (sign * mv)
  | some mv, some ex => (rustParseI32 ex).map fun e => sign * mv * 10 ^ e
  | none, _ => none

end StringModel

namespace Grbl

open StringModel

/-- Machine status, from `src/grbl/types.rs`. -/
inductive MacStatus where
  | Disconnected | Connecting | Idle | Run | Hold | Jog
  | Alarm | Door | Check | Home | Sleep
deriving DecidableEq, Repr

/-- Embedding of `MacStatus::from_str` (`src/grbl/types.rs`). -/
def MacStatus.from_str (s : List Char) : MacStatus :=
  if s = chars "Idle" then .Idle
  else if s = chars "Run" then .Run
  else if s = chars "Hold" ∨ s = chars "Hold:0" ∨ s = chars "Hold:1" then .Hold
  else if s = chars "Jog" then .Jog
  else if s = chars "Alarm" then .Alarm
  else if s = chars "Door" ∨ s = chars "Door:0" ∨ s = chars "Door:1"
    ∨ s = chars "Door:2" ∨ s = chars "Door:3" then .Door
  else if s = chars "Check" then .Check
  else if s = chars "Home" then .Home
  else if s = chars "Sleep" then .Sleep
  else .Disconnected

/-- Embedding of `GPoint` (`src/grbl/types.rs`), coordinates in `ℚ`. -/
structure GPoint where
  x : ℚ
  y : ℚ
  z : ℚ
deriving DecidableEq, Repr

def GPoint.zero : GPoint := ⟨0, 0, 0⟩

/-- Componentwise subtraction, as the `Sub` impl in `src/grbl/types.rs`. -/
def GPoint.sub (a b : GPoint) : GPoint := ⟨a.x - b.x, a.y - b.y, a.z - b.z⟩

/-- Embedding of `GrblState` (`src/grbl/types.rs`). -/
structure GrblState where
  status : MacStatus
  mpos : GPoint
  wpos : GPoint
  wco : GPoint
  feed_rate : ℚ
  spindle_speed : ℚ
  override_feed : ℤ
  override_rapid : ℤ
  override_spindle : ℤ
  buffer_plan : ℤ
  buffer_rx : ℤ
deriving DecidableEq, Repr

/-- The `Default` impl of `GrblState`. -/
def GrblState.default : GrblState :=
  { status := .Disconnected, mpos := .zero, wpos := .zero, wco := .zero,
    feed_rate := 0, spindle_speed := 0,
    override_feed := 100, override_rapid := 100, override_spindle := 100,
    buffer_plan := 0, buffer_rx := 0 }

/-- Embedding of `GrblResponse` (`src/grbl/types.rs`). -/
inductive GrblResponse where
  | Ok
  | Error (n : ℤ)
  | Alarm (n : ℤ)
  | Status (s : GrblState)
  | GrblVersion (v : String)
  | Message (m : String)
  | Setting (id : ℤ) (v : String)
deriving DecidableEq, Repr

/-- Embedding of `parse_point` (`src/grbl/parser.rs`). -/
def parse_point (s : List Char) : Option GPoint :=
  let nums := splitOnChar ',' s
  if 3 ≤ nums.length then
    match rustParseF32 (nums.getD 0 []), rustParseF32 (nums.getD 1 []),
        rustParseF32 (nums.getD 2 []) with
    | some x, some y, some z => some ⟨x, y, z⟩
    | _, _, _ => none
  else none

/-- One iteration of the field loop of `parse_status` (`src/grbl/parser.rs`):
the accumulator carries the state under construction and the `has_mpos`,
`has_wpos` flags. -/
def statusFieldStep (acc : GrblState × Bool × Bool) (part : List Char) :
    GrblState × Bool × Bool :=
  let (st, has_mpos, has_wpos) := acc
  match stripPfx (chars "MPos:") part with
  | some val =>
    match parse_point val with
    | some p => ({ st with mpos := p }, true, has_wpos)
    | none => acc
  | none =>
  match stripPfx (chars "WPos:") part with
  | some val =>
    match parse_point val with
    | some p => ({ st with wpos := p }, has_mpos, true)
    | none => acc
  | none =>
  match stripPfx (chars "WCO:") part with
  | some val =>
    match parse_point val with
    | some p => ({ st with wco := p }, has_mpos, has_wpos)
    | none => acc
  | none =>
  match stripPfx (chars "FS:") part with
  | some val =>
    let nums := splitOnChar ',' val
    if 2 ≤ nums.length then
      ({ st with feed_rate := (rustParseF32 (nums.getD 0 [])).getD 0,
                 spindle_speed := (rustParseF32 (nums.getD 1 [])).getD 0 },
       has_mpos, has_wpos)
    else acc
  | none =>
  match stripPfx (chars "F:") part with
  | some val =>
    ({ st with feed_rate := (rustParseF32 val).getD 0 }, has_mpos, has_wpos)
  | none =>
  match stripPfx (chars "Ov:") part with
  | some val =>
    let nums := splitOnChar ',' val
    if 3 ≤ nums.length then
      ({ st with override_feed := (rustParseI32 (nums.getD 0 [])).getD 100,
                 override_rapid := (rustParseI32 (nums.getD 1 [])).getD 100,
                 override_spindle := (rustParseI32 (nums.getD 2 [])).getD 100 },
       has_mpos, has_wpos)
    else acc
  | none =>
  match stripPfx (chars "Bf:") part with
  | some val =>
    let nums := splitOnChar ',' val
    if 2 ≤ nums.length then
      ({ st with buffer_plan := (rustParseI32 (nums.getD 0 [])).getD 0,
                 buffer_rx := (rustParseI32 (nums.getD 1 [])).getD 0 },
       has_mpos, has_wpos)
    else acc
  | none => acc

/-- Embedding of `parse_status` (`src/grbl/parser.rs`), on an already
char-decomposed line. -/
def parse_status (line : List Char) : Option GrblState :=
  let line := trimChars line
  if ¬ (line.take 1 = ['<'] ∧ line.getLast? = some '>') then none
  else
    let inner := (line.drop 1).dropLast
    let parts := splitOnChar '|' inner
    if parts.isEmpty then none
    else
      let st0 : GrblState × Bool × Bool :=
        ({ GrblState.default with status := MacStatus.from_str (parts.headD []) },
         false, false)
      let (st, has_mpos, has_wpos) := parts.tail.foldl statusFieldStep st0
      let st :=
        if has_mpos ∧ ¬ has_wpos then { st with wpos := st.mpos.sub st.wco }
        else if has_wpos ∧ ¬ has_mpos then
          { st with mpos := ⟨st.wpos.x + st.wco.x, st.wpos.y + st.wco.y,
                             st.wpos.z + st.wco.z⟩ }
        else st
      some st

/-- Rust's `splitn(2, '=')` on a char list: the part before the first `=`
and, when a `=` occurs, the remainder (which may itself contain `=`). -/
def splitN2eq (s : List Char) : List Char × Option (List Char) :=
  match splitOnChar '=' s with
  | [] => (s, none)
  | [a] => (a, none)
  | a :: rest => (a, some (List.intercalate ['='] rest))

/-- Branch chain of `parse_response` (`src/grbl/parser.rs`) after the
initial `let line = line.trim()`; the structure mirrors the Rust early
returns. -/
def parse_response_trimmed (l : List Char) : GrblResponse :=
  if l = chars "ok" then .Ok
  else
  match stripPfx (chars "error:") l with
  | some code => .Error ((rustParseI32 code).getD (-1))
  | none =>
  match stripPfx (chars "ALARM:") l with
  | some code => .Alarm ((rustParseI32 code).getD (-1))
  | none =>
  match (if l.take 1 = ['<'] then parse_status l else none) with
  | some st => .Status st
  | none =>
  match stripPfx (chars "Grbl ") l with
  | some ver => .GrblVersion ⟨ver⟩
  | none =>
  if l.take 1 = ['$'] ∧ l.contains '=' then
    match splitN2eq (l.drop 1) with
    | (a, some b) =>
      match rustParseI32 a with
      | some id => .Setting id ⟨b⟩
      | none => .Message ⟨l⟩
    | (_, none) => .Message ⟨l⟩
  else .Message ⟨l⟩

/-- Embedding of `parse_response` (`src/grbl/parser.rs`): trim, then the
branch chain. -/
def parse_response (line : String) : GrblResponse :=
  parse_response_trimmed (trimChars (chars line))

end Grbl

namespace Protocol

/-- GRBL real-time override bytes, from `src/grbl/protocol.rs`. -/
def FEED_OV_RESET : ℕ := 0x90
def FEED_OV_PLUS_10 : ℕ := 0x91
def FEED_OV_MINUS_10 : ℕ := 0x92
def FEED_OV_PLUS_1 : ℕ := 0x93
def FEED_OV_MINUS_1 : ℕ := 0x94
def SPINDLE_OV_RESET : ℕ := 0x99
def SPINDLE_OV_PLUS_10 : ℕ := 0x9A
def SPINDLE_OV_MINUS_10 : ℕ := 0x9B
def SPINDLE_OV_PLUS_1 : ℕ := 0x9C
def SPINDLE_OV_MINUS_1 : ℕ := 0x9D
def CMD_RESET : ℕ := 0x18

end Protocol

namespace App

open StringModel

/-- Embedding of `LaserApp::send_feed_override` (`src/app.rs`): the list of
bytes sent on the serial link, in order.  `pct` is the Rust `u8` argument,
`diff`, `tens`, `ones` are the Rust `i32` locals (`/` and `%` truncate
toward zero, hence `Int.tdiv` / `Int.tmod`). -/
def send_feed_override (pct : ℕ) : List ℕ :=
  let diff : ℤ := (pct : ℤ) - 100
  let tens : ℤ := diff.tdiv 10
  let ones : ℤ := diff.tmod 10
  let cmds : ℕ × ℕ :=
    if 0 ≤ diff then (Protocol.FEED_OV_PLUS_10, Protocol.FEED_OV_PLUS_1)
    else (Protocol.FEED_OV_MINUS_10, Protocol.FEED_OV_MINUS_1)
  [Protocol.FEED_OV_RESET] ++ List.replicate tens.natAbs cmds.1
    ++ List.replicate ones.natAbs cmds.2

/-- Embedding of the return-to-origin append step of `LaserApp::run_program`
(`src/app.rs`, lines 617–622): when configured, the program line list is
extended by the literal `G0 X0 Y0 F3000` unless the trimmed last line is
exactly `G0 X0 Y0`. -/
def run_program_append (return_to_origin : Bool) (program_lines : List String) :
    List String :=
  if return_to_origin then
    if program_lines.getLast?.map (fun l => trimChars (chars l)) ≠
        some (chars "G0 X0 Y0") then
      program_lines ++ ["G0 X0 Y0 F3000"]
    else program_lines
  else program_lines

end App

namespace GCode

/-- Embedding of `GCodeLine` (`src/gcode/types.rs`), parametrized by the
numeric carrier: `ℚ` where only field operations occur (path optimizer),
`ℝ` where trigonometry or square roots occur (transform, estimators). -/
structure GCodeLine (α : Type) where
  raw : String
  g_code : Option ℤ := none
  m_code : Option ℤ := none
  x : Option α := none
  y : Option α := none
  z : Option α := none
  f : Option α := none
  s : Option α := none
  i : Option α := none
  j : Option α := none
deriving DecidableEq, Repr

/-- Fixed-point rendering of a real, modelling Rust's `{:.prec$}` format
(used only in `to_gcode`; no claim depends on the rendered digits, so the
tie-breaking mode of float formatting is immaterial and modelled as
round-half-up on the exact value). -/
noncomputable def fmtFixed (prec : ℕ) (v : ℝ) : String :=
  let scaled : ℤ := round (v * 10 ^ prec)
  let sign := if scaled < 0 then "-" else ""
  let n := scaled.natAbs
  if prec = 0 then sign ++ toString n
  else
    let ip := n / 10 ^ prec
    let fp := n % 10 ^ prec
    let ds := toString fp
    sign ++ toString ip ++ "." ++
      String.mk (List.replicate (prec - ds.length) '0') ++ ds

/-- Rendering of one optional field of `to_gcode`. -/
noncomputable def fieldStr (tag : String) (prec : ℕ) (v : Option ℝ) : String :=
  match v with
  | some value => tag ++ fmtFixed prec value ++ " "
  | none => ""

/-- Rendering of an optional integer code (`G`/`M`) of `to_gcode`. -/
def codeStr (tag : String) (v : Option ℤ) : String :=
  match v with
  | some code => tag ++ toString code ++ " "
  | none => ""

/-- Embedding of `GCodeLine::to_gcode` (`src/gcode/types.rs`):
re-serialization from the parsed fields, falling back to the raw text when
no field is present. -/
noncomputable def to_gcode (l : GCodeLine ℝ) : String :=
  let str :=
    codeStr "G" l.g_code ++ codeStr "M" l.m_code ++
    fieldStr "X" 3 l.x ++ fieldStr "Y" 3 l.y ++ fieldStr "Z" 3 l.z ++
    fieldStr "I" 3 l.i ++ fieldStr "J" 3 l.j ++
    fieldStr "F" 0 l.f ++ fieldStr "S" 0 l.s
  if str = "" then l.raw else ⟨StringModel.trimChars (StringModel.chars str)⟩

/-- Field update performed by the non-neutral branch of
`GCodeLine::transform` (`src/gcode/types.rs`): rotate/scale/translate X,Y
when both are present, rotate I,J when both are present. -/
noncomputable def transformLine (l : GCodeLine ℝ) (offset : ℝ × ℝ)
    (rotation_deg : ℝ) (center : ℝ × ℝ) (rotary_scale : ℝ) : GCodeLine ℝ :=
  let angle := rotation_deg * (Real.pi / 180)
  let sin_a := Real.sin angle
  let cos_a := Real.cos angle
  let l₁ :=
    match l.x, l.y with
    | some x, some y =>
      let sy := y * rotary_scale
      let dx := x - center.1
      let dy := sy - center.2
      let rx := dx * cos_a - dy * sin_a
      let ry := dx * sin_a + dy * cos_a
      { l with x := some (rx + center.1 + offset.1),
               y := some (ry + center.2 + offset.2) }
    | _, _ => l
  match l₁.i, l₁.j with
  | some iv, some jv =>
    { l₁ with i := some (iv * cos_a - jv * sin_a),
              j := some (iv * sin_a + jv * cos_a) }
  | _, _ => l₁

/-- Embedding of `GCodeLine::transform` (`src/gcode/types.rs`): with a fully
neutral transform the original raw text is returned; otherwise the updated
fields are re-serialized. -/
noncomputable def transform (l : GCodeLine ℝ) (offset : ℝ × ℝ)
    (rotation_deg : ℝ) (center : ℝ × ℝ) (rotary_scale : ℝ) : String :=
  if offset.1 = 0 ∧ offset.2 = 0 ∧ rotation_deg = 0 ∧ rotary_scale = 1 then
    l.raw
  else to_gcode (transformLine l offset rotation_deg center rotary_scale)

end GCode

namespace Optimizer

open GCode

/-- Embedding of `BurnPath` (`src/gcode/optimizer.rs`). -/
structure BurnPath where
  start_x : ℚ
  start_y : ℚ
  end_x : ℚ
  end_y : ℚ
  min_x : ℚ
  min_y : ℚ
  max_x : ℚ
  max_y : ℚ
  lines : List (GCodeLine ℚ)
  nesting_level : ℕ
deriving DecidableEq, Repr

instance : Inhabited BurnPath := ⟨⟨0, 0, 0, 0, 0, 0, 0, 0, [], 0⟩⟩

/-- Accumulator of the grouping loop of `optimize`
(`src/gcode/optimizer.rs`, step 1). -/
structure GroupState where
  header : List (GCodeLine ℚ)
  footer : List (GCodeLine ℚ)
  burn_paths : List BurnPath
  current_path : Option BurnPath
  cur_x : ℚ
  cur_y : ℚ
  laser_on : Bool
deriving DecidableEq, Repr

def GroupState.init : GroupState := ⟨[], [], [], none, 0, 0, false⟩

/-- One iteration of the grouping loop of `optimize`
(`src/gcode/optimizer.rs`, lines 33–82). -/
def groupStep (st : GroupState) (line : GCodeLine ℚ) : GroupState :=
  if line.m_code = some 3 ∨ line.m_code = some 4 then
    { st with laser_on := true,
              current_path := some
                { start_x := st.cur_x, start_y := st.cur_y,
                  end_x := st.cur_x, end_y := st.cur_y,
                  min_x := st.cur_x, min_y := st.cur_y,
                  max_x := st.cur_x, max_y := st.cur_y,
                  lines := [line], nesting_level := 0 } }
  else if line.m_code = some 5 then
    { st with laser_on := false,
              current_path := none,
              burn_paths :=
                match st.current_path with
                | some p => st.burn_paths ++ [{ p with lines := p.lines ++ [line] }]
                | none => st.burn_paths }
  else
    match st.current_path with
    | some p =>
      let p := { p with lines := p.lines ++ [line] }
      let (p, cx) :=
        match line.x with
        | some xv => ({ p with end_x := xv, min_x := min p.min_x xv,
                               max_x := max p.max_x xv }, xv)
        | none => (p, st.cur_x)
      let (p, cy) :=
        match line.y with
        | some yv => ({ p with end_y := yv, min_y := min p.min_y yv,
                               max_y := max p.max_y yv }, yv)
        | none => (p, st.cur_y)
      { st with current_path := some p, cur_x := cx, cur_y := cy }
    | none =>
      if st.burn_paths ≠ [] then { st with footer := st.footer ++ [line] }
      else
        { st with header := st.header ++ [line],
                  cur_x := line.x.getD st.cur_x,
                  cur_y := line.y.getD st.cur_y }

/-- Bounding-box inclusion test of `optimize` (`src/gcode/optimizer.rs`,
lines 92–93): `a` lies inside `b`. -/
def insideBBox (a b : BurnPath) : Prop :=
  b.min_x ≤ a.min_x ∧ a.max_x ≤ b.max_x ∧ b.min_y ≤ a.min_y ∧ a.max_y ≤ b.max_y

instance (a b : BurnPath) : Decidable (insideBBox a b) :=
  inferInstanceAs (Decidable (b.min_x ≤ a.min_x ∧ a.max_x ≤ b.max_x ∧
    b.min_y ≤ a.min_y ∧ a.max_y ≤ b.max_y))

/-- Nesting-level pass of `optimize` (`src/gcode/optimizer.rs`, step 2):
the level of path `idx` is the number of other paths whose bounding box
contains it. -/
def assignNesting (paths : List BurnPath) : List BurnPath :=
  (List.range paths.length).map fun idx =>
    let p := paths.getD idx default
    { p with nesting_level :=
        ((List.range paths.length).filter fun jdx =>
          jdx ≠ idx ∧ insideBBox p (paths.getD jdx default)).length }

/-- Squared distance from the tool position to a path's start point, as in
`optimize` (`src/gcode/optimizer.rs`, line 117); `.powi(2)` is written as a
self-multiplication. -/
def distSq (lx ly : ℚ) (p : BurnPath) : ℚ :=
  (p.start_x - lx) * (p.start_x - lx) + (p.start_y - ly) * (p.start_y - ly)

/-- Selection scan of one greedy round (`src/gcode/optimizer.rs`, lines
108–123): among the remaining paths at the maximum remaining nesting level,
the index of the first path of minimum squared start-distance.  (The Rust
scan starts from `min_dist_sq = f32::MAX`, so the first candidate is always
accepted; this is modelled by the `none` accumulator.) -/
def selectBest (lx ly : ℚ) (remaining : List BurnPath) : Option ℕ :=
  let max_nesting := (remaining.map (·.nesting_level)).max?.getD 0
  (remaining.enum.foldl
    (fun acc ip =>
      if ip.2.nesting_level = max_nesting then
        let d := distSq lx ly ip.2
        match acc with
        | none => some (ip.1, d)
        | some (bi, bd) => if d < bd then some (ip.1, d) else some (bi, bd)
      else acc)
    none).map Prod.fst

/-- Greedy reordering loop of `optimize` (`src/gcode/optimizer.rs`, lines
107–133); `fuel` is the loop-termination argument and is instantiated with
the number of remaining paths (one path is removed per round). -/
def greedyGo (fuel : ℕ) (lx ly : ℚ) (remaining : List BurnPath) :
    List (GCodeLine ℚ) :=
  match fuel with
  | 0 => []
  | fuel + 1 =>
    if remaining.isEmpty then []
    else
      match selectBest lx ly remaining with
      | some idx =>
        let best := remaining.getD idx default
        best.lines ++ greedyGo fuel best.end_x best.end_y (remaining.eraseIdx idx)
      | none => []

/-- Embedding of `optimize` (`src/gcode/optimizer.rs`). -/
def optimize (lines : List (GCodeLine ℚ)) : List (GCodeLine ℚ) :=
  if lines.isEmpty then []
  else
    let g := lines.foldl groupStep GroupState.init
    let paths := assignNesting g.burn_paths
    g.header ++ greedyGo paths.length g.cur_x g.cur_y paths ++ g.footer

/-- Line that switches the laser on (`M3`/`M4`). -/
def laserOnCmd (l : GCodeLine ℚ) : Prop := l.m_code = some 3 ∨ l.m_code = some 4

/-- Line that switches the laser off (`M5`). -/
def laserOffCmd (l : GCodeLine ℚ) : Prop := l.m_code = some 5

/-- Line carrying none of the laser-switching M-codes. -/
def noLaserCmd (l : GCodeLine ℚ) : Prop :=
  l.m_code ≠ some 3 ∧ l.m_code ≠ some 4 ∧ l.m_code ≠ some 5

instance (l : GCodeLine ℚ) : Decidable (laserOnCmd l) :=
  inferInstanceAs (Decidable (l.m_code = some 3 ∨ l.m_code = some 4))
instance (l : GCodeLine ℚ) : Decidable (laserOffCmd l) :=
  inferInstanceAs (Decidable (l.m_code = some 5))
instance (l : GCodeLine ℚ) : Decidable (noLaserCmd l) :=
  inferInstanceAs (Decidable (l.m_code ≠ some 3 ∧ l.m_code ≠ some 4 ∧ l.m_code ≠ some 5))

/-- Modelled from the spec (claim wording): the header is exactly the lines
preceding the first `M3`/`M4`. -/
def specHeader (lines : List (GCodeLine ℚ)) : List (GCodeLine ℚ) :=
  lines.takeWhile fun l => decide (¬ laserOnCmd l)

/-- Modelled from the spec (claim wording): the footer is exactly the lines
following the last `M5`. -/
def specFooter (lines : List (GCodeLine ℚ)) : List (GCodeLine ℚ) :=
  (lines.reverse.takeWhile fun l => decide (¬ laserOffCmd l)).reverse

/-- A well-formed burn group of the input: an `M3`/`M4` line, a body free of
laser M-codes, the closing `M5`, and the trailing gap lines up to the next
group (also free of laser M-codes). -/
structure Group where
  onLine : GCodeLine ℚ
  body : List (GCodeLine ℚ)
  offLine : GCodeLine ℚ
  gap : List (GCodeLine ℚ)

/-- The lines of a group's `M3`-through-`M5` span. -/
def Group.span (g : Group) : List (GCodeLine ℚ) := [g.onLine] ++ g.body ++ [g.offLine]

/-- Well-formedness of a group. -/
def Group.wf (g : Group) : Prop :=
  laserOnCmd g.onLine ∧ (∀ l ∈ g.body, noLaserCmd l) ∧ laserOffCmd g.offLine ∧
    ∀ l ∈ g.gap, noLaserCmd l

instance (g : Group) : Decidable g.wf :=
  inferInstanceAs (Decidable (_ ∧ _ ∧ _ ∧ _))

/-- Concatenation of the groups' spans and gaps, in input order. -/
def chainLines (groups : List Group) : List (GCodeLine ℚ) :=
  groups.flatMap fun g => g.span ++ g.gap

/-- The effect of an in-path line on the open `BurnPath` (the `x`/`y`
bookkeeping of `groupStep`'s fall-through case), as one record update. -/
def pathUpdate (p : BurnPath) (line : GCodeLine ℚ) : BurnPath :=
  { p with
    lines := p.lines ++ [line],
    end_x := line.x.getD p.end_x,
    min_x := match line.x with | some xv => min p.min_x xv | none => p.min_x,
    max_x := match line.x with | some xv => max p.max_x xv | none => p.max_x,
    end_y := line.y.getD p.end_y,
    min_y := match line.y with | some yv => min p.min_y yv | none => p.min_y,
    max_y := match line.y with | some yv => max p.max_y yv | none => p.max_y }

/-- The `BurnPath` opened by an `M3`/`M4` line at the current position. -/
def newPath (cx cy : ℚ) (line : GCodeLine ℚ) : BurnPath :=
  { start_x := cx, start_y := cy, end_x := cx, end_y := cy,
    min_x := cx, min_y := cy, max_x := cx, max_y := cy,
    lines := [line], nesting_level := 0 }

/-- The fold step of `selectBest`, named for reasoning; `selectBest` is
definitionally the fold of this step over the enumerated remaining paths. -/
def selStep (m : ℕ) (lx ly : ℚ) (acc : Option (ℕ × ℚ)) (ip : ℕ × BurnPath) :
    Option (ℕ × ℚ) :=
  if ip.2.nesting_level = m then
    let d := distSq lx ly ip.2
    match acc with
    | none => some (ip.1, d)
    | some (bi, bd) => if d < bd then some (ip.1, d) else some (bi, bd)
  else acc

/-- Concrete program of the optimizer claims: a header move, then a burn
path `A` whose moves span the bounding box 0..100 on both axes, then a burn
path `B` (appearing *after* `A` in the input) whose bounding box 10..50 is
nested inside `A`'s. -/
def lnHdr : GCodeLine ℚ :=
  { raw := "G0 X20 Y20", g_code := some 0, x := some 20, y := some 20 }
def mA : GCodeLine ℚ := { raw := "M3 A", m_code := some 3 }
def a1 : GCodeLine ℚ := { raw := "G1 X0 Y0", g_code := some 1, x := some 0, y := some 0 }
def a2 : GCodeLine ℚ :=
  { raw := "G1 X100 Y100", g_code := some 1, x := some 100, y := some 100 }
def a3 : GCodeLine ℚ :=
  { raw := "G1 X30 Y30", g_code := some 1, x := some 30, y := some 30 }
def m5A : GCodeLine ℚ := { raw := "M5 A", m_code := some 5 }
def mB : GCodeLine ℚ := { raw := "M3 B", m_code := some 3 }
def b1 : GCodeLine ℚ :=
  { raw := "G1 X10 Y10", g_code := some 1, x := some 10, y := some 10 }
def b2 : GCodeLine ℚ :=
  { raw := "G1 X50 Y50", g_code := some 1, x := some 50, y := some 50 }
def m5B : GCodeLine ℚ := { raw := "M5 B", m_code := some 5 }
def exInput : List (GCodeLine ℚ) := [lnHdr, mA, a1, a2, a3, m5A, mB, b1, b2, m5B]

/-- The burn path the grouping loop builds for `A`. -/
def pathA : BurnPath := ⟨20, 20, 30, 30, 0, 0, 100, 100, [mA, a1, a2, a3, m5A], 0⟩
/-- The burn path the grouping loop builds for `B`. -/
def pathB : BurnPath := ⟨30, 30, 50, 50, 10, 10, 50, 50, [mB, b1, b2, m5B], 0⟩

/-- Concrete program of the C4 counterexample: one complete burn group, a
gap line, then an `M4` group that is never closed by `M5`. -/
def haLine : GCodeLine ℚ := { raw := "G0 X1", g_code := some 0, x := some 1 }
def c7Line : GCodeLine ℚ := { raw := "G0 X7", g_code := some 0, x := some 7 }
def m4Line : GCodeLine ℚ := { raw := "M4 D", m_code := some 4 }
def exInput4 : List (GCodeLine ℚ) := [haLine, mA, a1, m5A, c7Line, m4Line, b1]

/-- The single complete burn path the grouping loop recovers from
`exInput4`. -/
def pathP : BurnPath := ⟨1, 0, 0, 0, 0, 0, 1, 0, [mA, a1, m5A], 0⟩

end Optimizer

namespace GCode

/-- Embedding of `ModalState` (`src/gcode/types.rs`), over `ℝ`. -/
structure ModalState where
  absolute : Bool
  current_g : ℤ
  laser_on : Bool
  x : ℝ
  y : ℝ
  z : ℝ
  f : ℝ
  s : ℝ

/-- The `Default` impl of `ModalState`. -/
def ModalState.default : ModalState :=
  { absolute := true, current_g := 0, laser_on := false,
    x := 0, y := 0, z := 0, f := 0, s := 0 }

end GCode

namespace Estimation

open GCode

/-- Embedding of `EstimationResult` (`src/gcode/estimation.rs`). -/
structure EstimationResult where
  total_travel_mm : ℝ
  total_burn_mm : ℝ
  estimated_seconds : ℝ

def EstimationResult.init : EstimationResult := ⟨0, 0, 0⟩

/-- Modal-state tracking of one line of `estimate`
(`src/gcode/estimation.rs`, lines 22–35). -/
def trackModal (st : ModalState) (line : GCodeLine ℝ) : ModalState :=
  let st :=
    match line.g_code with
    | some g =>
      let st := if g = 0 ∨ g = 1 ∨ g = 2 ∨ g = 3 then { st with current_g := g } else st
      let st := if g = 90 then { st with absolute := true } else st
      if g = 91 then { st with absolute := false } else st
    | none => st
  let st := match line.f with | some fv => { st with f := fv } | none => st
  let st := match line.s with | some sv => { st with s := sv } | none => st
  match line.m_code with
  | some m =>
    let st := if m = 3 ∨ m = 4 then { st with laser_on := true } else st
    if m = 5 then { st with laser_on := false } else st
  | none => st

/-- One iteration of the loop of `estimate` (`src/gcode/estimation.rs`):
track modal state, then account the move when the line carries a
coordinate and a motion mode is active. -/
noncomputable def estimateStep (acc : ModalState × EstimationResult)
    (line : GCodeLine ℝ) : ModalState × EstimationResult :=
  let st := trackModal acc.1 line
  let has_xyz := line.x.isSome ∨ line.y.isSome ∨ line.z.isSome
  if has_xyz ∧ (st.current_g = 0 ∨ st.current_g = 1 ∨ st.current_g = 2 ∨ st.current_g = 3) then
    let nx := line.x.getD st.x
    let ny := line.y.getD st.y
    let dist :=
      if st.absolute then Real.sqrt ((nx - st.x) ^ 2 + (ny - st.y) ^ 2)
      else Real.sqrt (nx ^ 2 + ny ^ 2)
    let res :=
      if 0 < dist then
        let is_burn := st.laser_on ∧ 0 < st.current_g
        let res :=
          if is_burn then
            { acc.2 with total_burn_mm := acc.2.total_burn_mm + dist }
          else
            { acc.2 with total_travel_mm := acc.2.total_travel_mm + dist }
        let feed :=
          if st.current_g = 0 then (if 0 < st.f then st.f else 3000) else st.f
        if 0 < feed then
          { res with estimated_seconds := res.estimated_seconds + dist / feed * 60 }
        else res
      else acc.2
    let st :=
      if st.absolute then { st with x := nx, y := ny }
      else { st with x := st.x + nx, y := st.y + ny }
    (st, res)
  else (st, acc.2)

/-- Embedding of `estimate` (`src/gcode/estimation.rs`). -/
noncomputable def estimate (lines : List (GCodeLine ℝ)) : EstimationResult :=
  (lines.foldl estimateStep (ModalState.default, EstimationResult.init)).2

/-- The feed rate used by `estimate` for a move, after modal tracking
(`src/gcode/estimation.rs`, lines 59–63). -/
noncomputable def feedUsed (st : ModalState) : ℝ :=
  if st.current_g = 0 then (if 0 < st.f then st.f else 3000) else st.f

end Estimation

namespace GCodeFile

/-- Embedding of `move_time_trapezoid` (`src/gcode/file.rs`): trapezoidal
motion-time for a single move, over `ℝ` (the Rust code uses `f64`; every
quantity in the claims is exactly representable). -/
noncomputable def move_time_trapezoid (distance_mm feed_rate_mmpm accel_mm_s2 : ℝ) : ℝ :=
  if distance_mm ≤ 0 ∨ feed_rate_mmpm ≤ 0 then 0
  else
    let v_max := feed_rate_mmpm / 60
    let a := accel_mm_s2
    let d := distance_mm
    let d_ramp := v_max * v_max / a
    if d_ramp ≤ d then
      let t_ramp := 2 * v_max / a
      let d_cruise := d - d_ramp
      let t_cruise := d_cruise / v_max
      t_ramp + t_cruise
    else
      2 * Real.sqrt (d / a)

/-- Embedding of `PreviewSegment` (`src/gcode/types.rs`). -/
structure PreviewSegment where
  x1 : ℝ
  y1 : ℝ
  x2 : ℝ
  y2 : ℝ
  laser_on : Bool
  power : ℝ
  layer_id : ℕ

/-- Embedding of `LayerSettings` (`src/gcode/types.rs`); the colour is the
rgb triple the code computes. -/
structure LayerSettings where
  name : List Char
  color : ℕ × ℕ × ℕ
  visible : Bool
  passes : ℕ
  power : ℚ
  speed : ℚ

/-- The `Default` impl of `LayerSettings`. -/
def LayerSettings.default : LayerSettings :=
  { name := StringModel.chars "Default", color := (166, 227, 161),
    visible := true, passes := 1, power := 1000, speed := 1000 }

/-- Embedding of `KinematicParams` (`src/gcode/file.rs`) with its `Default`
values. -/
structure KinematicParams where
  max_rate_x : ℝ
  max_rate_y : ℝ
  accel_x : ℝ
  accel_y : ℝ

def KinematicParams.default : KinematicParams := ⟨3000, 3000, 200, 200⟩

/-- Accumulator of the replay loop of `build_preview` (`src/gcode/file.rs`). -/
structure PreviewState where
  segments : List GCodeFile.PreviewSegment
  layers : List LayerSettings
  current_layer_idx : ℕ
  modal : GCode.ModalState
  total_time_secs : ℝ

def PreviewState.init : PreviewState :=
  { segments := [], layers := [LayerSettings.default], current_layer_idx := 0,
    modal := GCode.ModalState.default, total_time_secs := 0 }

/-- Layer-comment handling of `build_preview` (`src/gcode/file.rs`, lines
154–167): a `;LAYER:<name>` comment selects an existing layer bucket of the
same name or creates a new one with a colour derived from the bucket index. -/
def layerUpdate (st : PreviewState) (raw : List Char) : PreviewState :=
  if StringModel.containsSeq (StringModel.chars ";LAYER:") raw then
    let name :=
      match (StringModel.splitOnChar ':' raw).get? 1 with
      | some v => StringModel.trimChars v
      | none => StringModel.trimChars (StringModel.chars "Layer")
    match st.layers.findIdx? (fun (l : LayerSettings) => decide (l.name = name)) with
    | some idx => { st with current_layer_idx := idx }
    | none =>
      let idx := st.layers.length
      let newLayer : LayerSettings :=
        { LayerSettings.default with
          name := name, color := (100 + (idx * 40) % 155, 200, 255) }
      { st with current_layer_idx := idx, layers := st.layers ++ [newLayer] }
  else st

/-- One iteration of the replay loop of `build_preview`
(`src/gcode/file.rs`, lines 142–244). -/
noncomputable def previewStep (kin : KinematicParams) (st : PreviewState)
    (line : GCode.GCodeLine ℝ) : PreviewState :=
  -- G90/G91 and motion-mode tracking
  let modal :=
    match line.g_code with
    | some g =>
      if g = 90 then { st.modal with absolute := true }
      else if g = 91 then { st.modal with absolute := false }
      else if g = 0 ∨ g = 1 ∨ g = 2 ∨ g = 3 then { st.modal with current_g := g }
      else st.modal
    | none => st.modal
  let st := layerUpdate { st with modal := modal } (StringModel.chars line.raw)
  let modal : GCode.ModalState :=
    match line.m_code with
    | some m =>
      if m = 3 ∨ m = 4 then { st.modal with laser_on := true }
      else if m = 5 then { st.modal with laser_on := false }
      else st.modal
    | none => st.modal
  let modal : GCode.ModalState :=
    match line.s with | some sv => { modal with s := sv } | none => modal
  let modal : GCode.ModalState :=
    match line.f with | some fv => { modal with f := fv } | none => modal
  let st := { st with modal := modal }
  let is_move :=
    (line.g_code.isSome ∧ (line.g_code = some 0 ∨ line.g_code = some 1))
      ∨ (line.g_code = none ∧ (line.x.isSome ∨ line.y.isSome))
  if is_move ∨ (line.g_code = some 0 ∨ line.g_code = some 1) then
    let new_x : ℝ := match line.x with
      | some xv => if modal.absolute then xv else modal.x + xv
      | none => modal.x
    let new_y : ℝ := match line.y with
      | some yv => if modal.absolute then yv else modal.y + yv
      | none => modal.y
    let new_z : ℝ := match line.z with
      | some zv => if modal.absolute then zv else modal.z + zv
      | none => modal.z
    let st : PreviewState :=
      if new_x ≠ modal.x ∨ new_y ≠ modal.y then
        let is_laser : Bool := modal.laser_on ∧ modal.current_g ≠ 0 ∧ 0 < modal.s
        let power : ℝ := if is_laser then min (modal.s / 1000) 1 else 0
        let st : PreviewState := { st with segments := st.segments ++
          [{ x1 := modal.x, y1 := modal.y, x2 := new_x, y2 := new_y,
             laser_on := is_laser, power := power,
             layer_id := st.current_layer_idx }] }
        let dx := new_x - modal.x
        let dy := new_y - modal.y
        let dist := Real.sqrt (dx * dx + dy * dy)
        if 0 < modal.f then
          -- `dy.atan2(dx).abs()`: atan2 is modelled via the complex argument
          let angle := |Complex.arg ⟨dx, dy⟩|
          let a_eff := max (kin.accel_x * Real.cos angle + kin.accel_y * Real.sin angle) 10
          let f_capped :=
            min modal.f (kin.max_rate_x * Real.cos angle + kin.max_rate_y * Real.sin angle)
          { st with total_time_secs :=
              st.total_time_secs + move_time_trapezoid dist f_capped a_eff }
        else st
      else st
    { st with modal := { modal with x := new_x, y := new_y, z := new_z } }
  else st

/-- Embedding of `build_preview` (`src/gcode/file.rs`): the preview
segments, the layer list and the summed time estimate. -/
noncomputable def build_preview (lines : List (GCode.GCodeLine ℝ)) : PreviewState :=
  lines.foldl (previewStep KinematicParams.default) PreviewState.init

end GCodeFile

namespace JobRunner

open StringModel

/-- The job-execution state the streaming claims are about: the loaded
program, the index of the next line and the running flag
(`src/app.rs`, fields `program_lines`, `program_index`, `running`). -/
structure JobState where
  program_lines : List String
  program_index : ℕ
  running : Bool
deriving DecidableEq, Repr

/-- Skip test of `send_next_program_line` (`src/app.rs`, line 348): the
trimmed command is empty or starts with `;` or `(`. -/
def skipLine (cmd : String) : Prop :=
  trimChars (chars cmd) = [] ∨ (trimChars (chars cmd)).take 1 = [';']
    ∨ (trimChars (chars cmd)).take 1 = ['(']

instance (cmd : String) : Decidable (skipLine cmd) :=
  inferInstanceAs (Decidable (trimChars (chars cmd) = [] ∨
    (trimChars (chars cmd)).take 1 = [';'] ∨ (trimChars (chars cmd)).take 1 = ['(']))

/-- Loop of `send_next_program_line` (`src/app.rs`, lines 318–356).
`cmdOf i` abstracts the command the code builds for program index `i`
(per-line geometric transform of the parsed line, or the raw line, plus the
dry-run `M3`/`M4`→`M5` substitution — `src/app.rs`, lines 323–345); the
loop sends the trimmed command.  `fuel` is the loop-termination argument,
instantiated with `length - index` (the index grows by one per iteration). -/
def sendNextGo (cmdOf : ℕ → String) (lines : List String) :
    ℕ → ℕ → ℕ × Option String
  | 0, idx => (idx, none)
  | fuel + 1, idx =>
    if idx < lines.length then
      let trimmed := trimChars (chars (cmdOf idx))
      if skipLine (cmdOf idx) then sendNextGo cmdOf lines fuel (idx + 1)
      else (idx + 1, some ⟨trimmed⟩)
    else (idx, none)

/-- Embedding of `send_next_program_line` (`src/app.rs`): the updated state
and the line sent, if any. -/
def send_next_program_line (cmdOf : ℕ → String) (st : JobState) :
    JobState × Option String :=
  let r := sendNextGo cmdOf st.program_lines
    (st.program_lines.length - st.program_index) st.program_index
  ({ st with program_index := r.1 }, r.2)

/-- Embedding of the `Ok`-acknowledgment case of `poll_serial`
(`src/app.rs`, lines 263–276): while running and lines remain, send the
next line; while running at the end, complete (clear `running`). -/
def handle_ok (cmdOf : ℕ → String) (st : JobState) : JobState × Option String :=
  if st.running ∧ st.program_index < st.program_lines.length then
    send_next_program_line cmdOf st
  else if st.running then ({ st with running := false }, none)
  else (st, none)

/-- Start of a run (`run_program`, `src/app.rs`): reset the index, set
`running`, send the first eligible line. -/
def run_start (cmdOf : ℕ → String) (lines : List String) :
    JobState × Option String :=
  send_next_program_line cmdOf
    { program_lines := lines, program_index := 0, running := true }

/-- Processing of `k` consecutive `ok` acknowledgments: the final state and
the list of lines sent. -/
def driveOks (cmdOf : ℕ → String) : ℕ → JobState → JobState × List String
  | 0, st => (st, [])
  | k + 1, st =>
    let r := handle_ok cmdOf st
    let rest := driveOks cmdOf k r.1
    (rest.1, r.2.toList ++ rest.2)

/-- Number of sendable (non-skipped) program lines from index `idx` on;
`fuel` is instantiated with `length - idx`. -/
def sendableFrom (cmdOf : ℕ → String) (lines : List String) :
    ℕ → ℕ → ℕ
  | 0, _ => 0
  | fuel + 1, idx =>
    if idx < lines.length then
      (if skipLine (cmdOf idx) then 0 else 1) + sendableFrom cmdOf lines fuel (idx + 1)
    else 0

/-- Number of sendable lines of a whole program. -/
def sendableCount (cmdOf : ℕ → String) (lines : List String) : ℕ :=
  sendableFrom cmdOf lines lines.length 0

/-- Concrete three-line program for the job-runner instance: two commands
around a comment line. -/
def wLines : List String := ["G1 X1", "; pause", "G1 X2"]

/-- Command builder of the concrete program: the raw line itself. -/
def wCmd : ℕ → String := fun i => wLines.getD i ""

end JobRunner

/-!
Helper lemmas shared by the claim theorems.
-/

namespace Grbl

open StringModel

theorem take_one_congr {l p : List Char} {n : ℕ} (h : l.take n = p) (hn : 1 ≤ n) :
    l.take 1 = p.take 1 := by
  rw [← h, List.take_take]
  congr 1
  omega

theorem length_pos_of_take_one {p : List Char} {c : Char} (hp : p.take 1 = [c]) :
    1 ≤ p.length := by
  rcases p with _ | ⟨a, rest⟩
  · simp at hp
  · simp

theorem stripPfx_eq_some {p l c : List Char} (h : stripPfx p l = some c) :
    l.take p.length = p ∧ c = l.drop p.length := by
  unfold stripPfx at h
  by_cases hc : l.take p.length = p
  · rw [if_pos hc] at h
    exact ⟨hc, (Option.some.injEq _ _ ▸ h).symm⟩
  · rw [if_neg hc] at h
    exact absurd h (by simp)

theorem stripPfx_ne_of_take1 (c1 c2 : Char) {p l : List Char}
    (hp : p.take 1 = [c1]) (hl : l.take 1 = [c2]) (hne : c1 ≠ c2) :
    stripPfx p l = none := by
  unfold stripPfx
  rw [if_neg]
  intro h
  have h1 := take_one_congr h (length_pos_of_take_one hp)
  rw [hl, hp] at h1
  exact hne (List.cons.injEq _ _ _ _ ▸ h1).1.symm

theorem rt_ok {l : List Char} (h : l = chars "ok") :
    parse_response_trimmed l = .Ok := by
  unfold parse_response_trimmed
  rw [if_pos h]

theorem rt_ne_ok {l : List Char} (h : l ≠ chars "ok") :
    parse_response_trimmed l ≠ .Ok := by
  unfold parse_response_trimmed
  rw [if_neg h]
  split
  · simp
  · split
    · simp
    · split
      · simp
      · split
        · simp
        · split
          · split
            · split <;> simp
            · simp
          · simp

theorem rt_error {l c : List Char} (h : stripPfx (chars "error:") l = some c) :
    parse_response_trimmed l = .Error ((rustParseI32 c).getD (-1)) := by
  have hok : l ≠ chars "ok" := by
    intro he
    rw [he] at h
    rw [show stripPfx (chars "error:") (chars "ok") = none from rfl] at h
    exact Option.noConfusion h
  unfold parse_response_trimmed
  rw [if_neg hok, h]

theorem rt_alarm {l c : List Char} (h : stripPfx (chars "ALARM:") l = some c) :
    parse_response_trimmed l = .Alarm ((rustParseI32 c).getD (-1)) := by
  have htake := (stripPfx_eq_some h).1
  have h1 : l.take 1 = ['A'] := by
    have := take_one_congr htake (by decide)
    rwa [show (chars "ALARM:").take 1 = ['A'] from rfl] at this
  have hok : l ≠ chars "ok" := by
    intro he
    rw [he] at h1
    exact absurd h1 (by decide)
  have herr : stripPfx (chars "error:") l = none :=
    stripPfx_ne_of_take1 'e' 'A' (by decide) h1 (by decide)
  unfold parse_response_trimmed
  rw [if_neg hok, herr, h]

theorem rt_setting {l a b : List Char} {id : ℤ}
    (h1 : l.take 1 = ['$']) (h2 : l.contains '=' = true)
    (h3 : splitN2eq (l.drop 1) = (a, some b)) (h4 : rustParseI32 a = some id) :
    parse_response_trimmed l = .Setting id ⟨b⟩ := by
  have hok : l ≠ chars "ok" := by
    intro he
    rw [he] at h1
    exact absurd h1 (by decide)
  have herr : stripPfx (chars "error:") l = none :=
    stripPfx_ne_of_take1 'e' '$' (by decide) h1 (by decide)
  have halm : stripPfx (chars "ALARM:") l = none :=
    stripPfx_ne_of_take1 'A' '$' (by decide) h1 (by decide)
  have hver : stripPfx (chars "Grbl ") l = none :=
    stripPfx_ne_of_take1 'G' '$' (by decide) h1 (by decide)
  have hlt : ¬ l.take 1 = ['<'] := by
    rw [h1]
    decide
  unfold parse_response_trimmed
  rw [if_neg hok, herr, halm, if_neg hlt, hver, if_pos ⟨h1, h2⟩]
  simp only [h3, h4]

theorem rt_message {l : List Char}
    (hok : l ≠ chars "ok")
    (herr : stripPfx (chars "error:") l = none)
    (halm : stripPfx (chars "ALARM:") l = none)
    (hstat : l.take 1 = ['<'] → parse_status l = none)
    (hver : stripPfx (chars "Grbl ") l = none)
    (hset : ¬ (l.take 1 = ['$'] ∧ l.contains '=' = true ∧
      (splitN2eq (l.drop 1)).2.isSome ∧
      (rustParseI32 (splitN2eq (l.drop 1)).1).isSome)) :
    parse_response_trimmed l = .Message ⟨l⟩ := by
  unfold parse_response_trimmed
  rw [if_neg hok, herr, halm]
  have hs : (if l.take 1 = ['<'] then parse_status l else none) = none := by
    by_cases h1 : l.take 1 = ['<']
    · rw [if_pos h1]
      exact hstat h1
    · rw [if_neg h1]
  rw [hs, hver]
  by_cases hd : l.take 1 = ['$'] ∧ l.contains '=' = true
  · rw [if_pos hd]
    rcases hsp : splitN2eq (l.drop 1) with ⟨a, _ | b⟩
    · simp only [hsp]
    · rcases hpi : rustParseI32 a with _ | id
      · simp only [hsp, hpi]
      · refine absurd ⟨hd.1, hd.2, ?_, ?_⟩ hset
        · rw [hsp]
          rfl
        · rw [hsp]
          simp [hpi]
  · rw [if_neg hd]

theorem rt_ok_iff (l : List Char) :
    parse_response_trimmed l = .Ok ↔ l = chars "ok" := by
  constructor
  · intro h
    by_contra hne
    exact rt_ne_ok hne h
  · exact rt_ok

end Grbl

/-!
Claim theorems.
-/

open StringModel Grbl in
/-- C2: `parse_response` is total and matches the documented response forms:
`Ok` exactly for trimmed `"ok"`; `Error n` for trimmed inputs starting with
`error:` with `n = -1` when the suffix does not parse; `Alarm n` likewise
for `ALARM:`; `Setting id value` for `$<int>=<value>` (e.g. `$5=10`); and a
passthrough `Message` carrying the trimmed line for every input matching
none of the forms (including undecodable bracket lines). -/
theorem C2_parse_response_forms :
    parse_response "ok" = .Ok ∧
    parse_response "error:23" = .Error 23 ∧
    parse_response "ALARM:9" = .Alarm 9 ∧
    parse_response "$5=10" = .Setting 5 "10" ∧
    (∀ s : String, parse_response s = .Ok ↔ trimChars (chars s) = chars "ok") ∧
    (∀ (s : String) (c : List Char),
      stripPfx (chars "error:") (trimChars (chars s)) = some c →
      parse_response s = .Error ((rustParseI32 c).getD (-1))) ∧
    (∀ (s : String) (c : List Char),
      stripPfx (chars "ALARM:") (trimChars (chars s)) = some c →
      parse_response s = .Alarm ((rustParseI32 c).getD (-1))) ∧
    (∀ (s : String) (a b : List Char) (id : ℤ),
      (trimChars (chars s)).take 1 = ['$'] →
      (trimChars (chars s)).contains '=' = true →
      splitN2eq ((trimChars (chars s)).drop 1) = (a, some b) →
      rustParseI32 a = some id →
      parse_response s = .Setting id ⟨b⟩) ∧
    (∀ s : String,
      trimChars (chars s) ≠ chars "ok" →
      stripPfx (chars "error:") (trimChars (chars s)) = none →
      stripPfx (chars "ALARM:") (trimChars (chars s)) = none →
      ((trimChars (chars s)).take 1 = ['<'] →
        parse_status (trimChars (chars s)) = none) →
      stripPfx (chars "Grbl ") (trimChars (chars s)) = none →
      ¬ ((trimChars (chars s)).take 1 = ['$'] ∧
        (trimChars (chars s)).contains '=' = true ∧
        (splitN2eq ((trimChars (chars s)).drop 1)).2.isSome ∧
        (rustParseI32 (splitN2eq ((trimChars (chars s)).drop 1)).1).isSome) →
      parse_response s = .Message ⟨trimChars (chars s)⟩) := by
  refine ⟨by decide, by decide, by decide, by decide, ?_, ?_, ?_, ?_, ?_⟩
  · intro s
    exact rt_ok_iff (trimChars (chars s))
  · intro s c h
    exact rt_error h
  · intro s c h
    exact rt_alarm h
  · intro s a b id h1 h2 h3 h4
    exact rt_setting h1 h2 h3 h4
  · intro s h1 h2 h3 h4 h5 h6
    exact rt_message h1 h2 h3 h4 h5 h6

open StringModel Grbl in
/-- C2 witness: the hypothesis-bearing conjuncts of
`C2_parse_response_forms`, applied at concrete inputs: an unparseable error
code degrades to `-1`, and a line matching no form passes through as a
`Message`. -/
theorem C2_parse_response_forms_witness :
    parse_response " error:xyz " = .Error (-1) ∧
    parse_response "$foo" = .Message "$foo" := by
  constructor
  · have h := C2_parse_response_forms.2.2.2.2.2.1 " error:xyz " (chars "xyz")
      (by decide)
    rwa [show (rustParseI32 (chars "xyz")).getD (-1) = (-1 : ℤ) from rfl] at h
  · exact C2_parse_response_forms.2.2.2.2.2.2.2.2 "$foo" (by decide) (by decide)
      (by decide) (fun hc => absurd hc (by decide)) (by decide) (by decide)

/-- C5 counterexample: in `build_preview` (the trapezoidal job-time
estimator stored in `GCodeFile::estimated_time`), a `G0 X10` move from the
origin — a rapid of positive distance with no `F` word ever seen — emits a
preview segment but contributes zero time: the time accumulation is guarded
by `state.f > 0.0` and no 3000 mm/min default is applied there. -/
theorem C5_build_preview_counterexample :
    (GCodeFile.build_preview
      [{ raw := "G0 X10", g_code := some 0, x := some 10 }]).total_time_secs = 0 ∧
    (GCodeFile.build_preview
      [{ raw := "G0 X10", g_code := some 0, x := some 10 }]).segments.length = 1 := by
  have hcontains : StringModel.containsSeq (StringModel.chars ";LAYER:")
      (StringModel.chars "G0 X10") = false := rfl
  have hstep : GCodeFile.build_preview
      [{ raw := "G0 X10", g_code := some 0, x := some 10 }] =
      GCodeFile.previewStep GCodeFile.KinematicParams.default GCodeFile.PreviewState.init
        { raw := "G0 X10", g_code := some 0, x := some 10 } := rfl
  rw [hstep]
  unfold GCodeFile.previewStep GCodeFile.layerUpdate
  norm_num [hcontains, GCodeFile.PreviewState.init, GCode.ModalState.default]

/-- C5 (amended): in `estimation::estimate`, every rapid (`G0`) move of
positive distance contributes `dist / feed * 60` seconds with
`feed = feedUsed st`, which is the modal `F` when positive and the fixed
3000 mm/min default otherwise — the contribution is strictly positive, so a
`G0` move never contributes zero time for lack of an `F` word.  (In
`build_preview`, by contrast, a move contributes time only when the modal
`F` is positive; see the counterexample.) -/
theorem C5_estimate_rapid_default_feed
    (acc : GCode.ModalState × Estimation.EstimationResult)
    (line : GCode.GCodeLine ℝ) (st : GCode.ModalState) (nx ny dist : ℝ)
    (hst : st = Estimation.trackModal acc.1 line)
    (hnx : nx = line.x.getD st.x) (hny : ny = line.y.getD st.y)
    (hdist : dist = if st.absolute then Real.sqrt ((nx - st.x) ^ 2 + (ny - st.y) ^ 2)
      else Real.sqrt (nx ^ 2 + ny ^ 2))
    (hxyz : line.x.isSome ∨ line.y.isSome ∨ line.z.isSome)
    (hg : st.current_g = 0)
    (hpos : 0 < dist) :
    (Estimation.estimateStep acc line).2.estimated_seconds
        = acc.2.estimated_seconds + dist / Estimation.feedUsed st * 60 ∧
    0 < dist / Estimation.feedUsed st * 60 ∧
    Estimation.feedUsed st = (if 0 < st.f then st.f else 3000) ∧
    (st.f ≤ 0 → Estimation.feedUsed st = 3000) := by
  have hfeed : Estimation.feedUsed st = (if 0 < st.f then st.f else 3000) := by
    unfold Estimation.feedUsed
    rw [if_pos hg]
  have hfpos : 0 < Estimation.feedUsed st := by
    rw [hfeed]
    split
    · assumption
    · norm_num
  have hburn : ¬ (st.laser_on = true ∧ 0 < st.current_g) := by simp [hg]
  refine ⟨?_, ?_, hfeed, ?_⟩
  · unfold Estimation.estimateStep
    rw [← hst, if_pos ⟨hxyz, Or.inl hg⟩]
    simp only [← hnx, ← hny, ← hdist]
    rw [if_pos hpos, if_neg hburn, if_pos hg,
      show (if 0 < st.f then st.f else 3000) = Estimation.feedUsed st from hfeed.symm,
      if_pos hfpos]
  · positivity
  · intro hle
    rw [hfeed, if_neg (not_lt.mpr hle)]

/-- C5 witness: `C5_estimate_rapid_default_feed` applied to a `G0 X3 Y4`
rapid from the default modal state (no `F` ever set): the move of distance 5
contributes positive time at the 3000 mm/min default. -/
theorem C5_estimate_rapid_default_feed_witness :
    (Estimation.estimateStep (GCode.ModalState.default, Estimation.EstimationResult.init)
        { raw := "G0 X3 Y4", g_code := some 0, x := some 3, y := some 4 }).2.estimated_seconds
      = Estimation.EstimationResult.init.estimated_seconds
          + 5 / Estimation.feedUsed GCode.ModalState.default * 60 ∧
    0 < (5 : ℝ) / Estimation.feedUsed GCode.ModalState.default * 60 ∧
    Estimation.feedUsed GCode.ModalState.default = 3000 := by
  have h := C5_estimate_rapid_default_feed
    (GCode.ModalState.default, Estimation.EstimationResult.init)
    { raw := "G0 X3 Y4", g_code := some 0, x := some 3, y := some 4 }
    GCode.ModalState.default 3 4 5 rfl rfl rfl
    (by
      rw [if_pos (show GCode.ModalState.default.absolute = true from rfl)]
      rw [show ((3 : ℝ) - GCode.ModalState.default.x) ^ 2
          + ((4 : ℝ) - GCode.ModalState.default.y) ^ 2 = 5 ^ 2 by
        norm_num [GCode.ModalState.default]]
      exact (Real.sqrt_sq (by norm_num)).symm)
    (Or.inl rfl) rfl (by norm_num)
  exact ⟨h.1, h.2.1, h.2.2.2 (le_refl 0)⟩

/-- C6 counterexample: the claim says the literal `G0 X0 Y0 F3000` is
appended if and only if it is not already the last program line.  But the
code compares the trimmed last line against `"G0 X0 Y0"` (without the
`F3000`), so with `G0 X0 Y0 F3000` already last — exactly the state after a
previous run — the line is appended again. -/
theorem C6_run_program_append_counterexample :
    App.run_program_append true ["G0 X0 Y0 F3000"] =
      ["G0 X0 Y0 F3000", "G0 X0 Y0 F3000"] ∧
    (["G0 X0 Y0 F3000"] : List String).getLast? = some "G0 X0 Y0 F3000" := by
  decide

open StringModel in
/-- C6 (amended): when "return to origin" is configured, `run_program`
appends the literal `G0 X0 Y0 F3000` if and only if the trimmed last
program line is not exactly `G0 X0 Y0`; in particular, starting a run twice
in a row appends the line twice, because the appended line itself does not
trim to `G0 X0 Y0`. -/
theorem C6_run_program_append_condition :
    (∀ (cfg : Bool) (lines : List String),
      App.run_program_append cfg lines = lines ++ ["G0 X0 Y0 F3000"] ↔
        (cfg = true ∧
          lines.getLast?.map (fun l => trimChars (chars l)) ≠
            some (chars "G0 X0 Y0"))) ∧
    App.run_program_append true (App.run_program_append true ["G1 X10"]) =
      ["G1 X10", "G0 X0 Y0 F3000", "G0 X0 Y0 F3000"] := by
  constructor
  · intro cfg lines
    constructor
    · intro h
      unfold App.run_program_append at h
      by_cases hc : cfg = true
      · subst hc
        simp only [if_pos rfl] at h
        by_cases hl : lines.getLast?.map (fun l => trimChars (chars l)) ≠
            some (chars "G0 X0 Y0")
        · exact ⟨rfl, hl⟩
        · rw [if_neg hl] at h
          exact absurd (congrArg List.length h) (by simp)
      · rw [Bool.not_eq_true] at hc
        subst hc
        simp only [Bool.false_eq_true, if_false] at h
        exact absurd (congrArg List.length h) (by simp)
    · rintro ⟨hc, hl⟩
      subst hc
      unfold App.run_program_append
      rw [if_pos rfl, if_pos hl]
  · decide

/-- C6 witness: `C6_run_program_append_condition` applied to a one-line
program whose last line does not trim to `G0 X0 Y0`: the literal is
appended. -/
theorem C6_run_program_append_condition_witness :
    App.run_program_append true ["G1 X10"] = ["G1 X10"] ++ ["G0 X0 Y0 F3000"] :=
  (C6_run_program_append_condition.1 true ["G1 X10"]).mpr ⟨rfl, by decide⟩

/-- C7: at the trapezoid/triangle branch boundary — distance 100 mm, feed
6000 mm/min, acceleration 100 mm/s², where the distance equals the ramp
distance `v²/a` — `move_time_trapezoid` returns exactly 2 seconds, and both
the trapezoid formula `2v/a + (d - d_ramp)/v` and the triangular formula
`2·sqrt(d/a)` evaluate to that same value. -/
theorem C7_move_time_trapezoid_boundary :
    GCodeFile.move_time_trapezoid 100 6000 100 = 2 ∧
    (2 * (6000 / 60) / 100
      + (100 - (6000 / 60) * (6000 / 60) / 100) / (6000 / 60) : ℝ) = 2 ∧
    (2 * Real.sqrt (100 / 100) : ℝ) = 2 := by
  refine ⟨?_, by norm_num, ?_⟩
  · unfold GCodeFile.move_time_trapezoid
    rw [if_neg (by norm_num), if_pos (by norm_num)]
    norm_num
  · rw [show ((100 : ℝ) / 100) = 1 by norm_num, Real.sqrt_one]
    norm_num

/-- C8: a `GCodeLine` transformed with zero X/Y offset, zero rotation and
unit rotary scale returns its original raw text unchanged (the guard branch
of `transform` returns `raw` before any re-serialization). -/
theorem C8_transform_neutral_raw (l : GCode.GCodeLine ℝ) (center : ℝ × ℝ) :
    GCode.transform l (0, 0) 0 center 1 = l.raw := by
  unfold GCode.transform
  rw [if_pos ⟨rfl, rfl, rfl, rfl⟩]

/-- C8 witness: the neutral transform of a concrete line with a comment in
its raw text returns that raw text byte-identically. -/
theorem C8_transform_neutral_raw_witness :
    GCode.transform { raw := "G1 X1 ; cut", g_code := some 1, x := some 1 }
      (0, 0) 0 (37, 5) 1 = "G1 X1 ; cut" :=
  C8_transform_neutral_raw { raw := "G1 X1 ; cut", g_code := some 1, x := some 1 } (37, 5)

/-- C9: for every percentage between 10 and 200, `send_feed_override` sends
the feed-override reset byte first and then, with `diff = pct - 100`,
`|diff| / 10` ten-percent steps followed by `|diff| mod 10` one-percent
steps — plus-step bytes when `diff ≥ 0` (i.e. `pct ≥ 100`), minus-step
bytes otherwise.  (For truncating division, `|diff / 10| = |diff| / 10` and
`|diff % 10| = |diff| % 10`.) -/
theorem C9_send_feed_override_decomposition (pct : ℕ) (h1 : 10 ≤ pct) (h2 : pct ≤ 200) :
    App.send_feed_override pct =
      [Protocol.FEED_OV_RESET] ++
      List.replicate (((pct : ℤ) - 100).natAbs / 10)
        (if 100 ≤ pct then Protocol.FEED_OV_PLUS_10 else Protocol.FEED_OV_MINUS_10) ++
      List.replicate (((pct : ℤ) - 100).natAbs % 10)
        (if 100 ≤ pct then Protocol.FEED_OV_PLUS_1 else Protocol.FEED_OV_MINUS_1) := by
  interval_cases pct <;> decide

/-- C9 witness: `send_feed_override 120` emits the reset byte, then exactly
two `+10` bytes and zero `+1` bytes. -/
theorem C9_send_feed_override_decomposition_witness :
    App.send_feed_override 120 =
      [Protocol.FEED_OV_RESET, Protocol.FEED_OV_PLUS_10, Protocol.FEED_OV_PLUS_10] := by
  rw [C9_send_feed_override_decomposition 120 (by norm_num) (by norm_num)]
  decide

/-- C10: under any non-neutral transform, the X/Y pair is rewritten only
when both X and Y are present and the I/J pair only when both I and J are
present — a line carrying only one of X/Y (or of I/J) keeps those fields
unchanged, Z/F/S are never touched — and the result is re-serialized from
the parsed fields by `to_gcode` rather than taken from the raw text. -/
theorem C10_transform_nonneutral_fields (l : GCode.GCodeLine ℝ) (offset : ℝ × ℝ)
    (rotation_deg : ℝ) (center : ℝ × ℝ) (rotary_scale : ℝ)
    (h : ¬ (offset.1 = 0 ∧ offset.2 = 0 ∧ rotation_deg = 0 ∧ rotary_scale = 1)) :
    GCode.transform l offset rotation_deg center rotary_scale =
      GCode.to_gcode (GCode.transformLine l offset rotation_deg center rotary_scale) ∧
    (¬ (l.x.isSome ∧ l.y.isSome) →
      (GCode.transformLine l offset rotation_deg center rotary_scale).x = l.x ∧
      (GCode.transformLine l offset rotation_deg center rotary_scale).y = l.y) ∧
    (¬ (l.i.isSome ∧ l.j.isSome) →
      (GCode.transformLine l offset rotation_deg center rotary_scale).i = l.i ∧
      (GCode.transformLine l offset rotation_deg center rotary_scale).j = l.j) ∧
    (GCode.transformLine l offset rotation_deg center rotary_scale).z = l.z ∧
    (GCode.transformLine l offset rotation_deg center rotary_scale).f = l.f ∧
    (GCode.transformLine l offset rotation_deg center rotary_scale).s = l.s := by
  refine ⟨?_, ?_, ?_, ?_, ?_, ?_⟩
  · unfold GCode.transform
    rw [if_neg h]
  all_goals
    first
      | (intro hp
         unfold GCode.transformLine
         rcases hx : l.x with _ | xv <;> rcases hy : l.y with _ | yv <;>
           rcases hi : l.i with _ | iv <;> rcases hj : l.j with _ | jv <;>
           simp_all)
      | (unfold GCode.transformLine
         rcases hx : l.x with _ | xv <;> rcases hy : l.y with _ | yv <;>
           rcases hi : l.i with _ | iv <;> rcases hj : l.j with _ | jv <;>
           simp_all)

/-- C10 witness: `C10_transform_nonneutral_fields` applied to a line with
only an X coordinate under a pure-offset transform: all numeric fields are
left alone and the output is the re-serialization of the unchanged fields. -/
theorem C10_transform_nonneutral_fields_witness :
    GCode.transform { raw := "G1 X1", g_code := some 1, x := some 1 } (1, 0) 0 (0, 0) 1 =
      GCode.to_gcode { raw := "G1 X1", g_code := some 1, x := some 1 } ∧
    (GCode.transformLine { raw := "G1 X1", g_code := some 1, x := some 1 }
      (1, 0) 0 (0, 0) 1).x = some 1 := by
  have h := C10_transform_nonneutral_fields
    { raw := "G1 X1", g_code := some 1, x := some 1 } (1, 0) 0 (0, 0) 1
    (by intro hc; exact absurd hc.1 (by norm_num))
  constructor
  · rw [h.1]
    rfl
  · exact ((h.2.1 (by simp)).1).trans rfl

namespace Optimizer

open GCode

theorem groupStep_on {l : GCodeLine ℚ} (st : GroupState) (h : laserOnCmd l) :
    groupStep st l =
      { st with laser_on := true,
                current_path := some (newPath st.cur_x st.cur_y l) } := by
  unfold groupStep newPath
  rw [if_pos (show l.m_code = some 3 ∨ l.m_code = some 4 from h)]

theorem groupStep_off_some {l : GCodeLine ℚ} {p : BurnPath} (st : GroupState)
    (h : laserOffCmd l) (hc : st.current_path = some p) :
    groupStep st l =
      { st with laser_on := false, current_path := none,
                burn_paths := st.burn_paths ++ [{ p with lines := p.lines ++ [l] }] } := by
  have hne : ¬ (l.m_code = some 3 ∨ l.m_code = some 4) := by
    unfold laserOffCmd at h
    rw [h]
    rintro (hx | hx) <;> exact Option.noConfusion hx (fun he => by omega)
  unfold groupStep
  rw [if_neg hne, if_pos (show l.m_code = some 5 from h), hc]

theorem groupStep_body {l : GCodeLine ℚ} {p : BurnPath} (st : GroupState)
    (h : noLaserCmd l) (hc : st.current_path = some p) :
    groupStep st l =
      { st with current_path := some (pathUpdate p l),
                cur_x := l.x.getD st.cur_x, cur_y := l.y.getD st.cur_y } := by
  obtain ⟨h3, h4, h5⟩ := h
  unfold groupStep
  rw [if_neg (by rintro (hx | hx) <;> [exact h3 hx; exact h4 hx]), if_neg h5, hc]
  unfold pathUpdate
  rcases hx : l.x with _ | xv <;> rcases hy : l.y with _ | yv <;> simp [hx, hy]

theorem groupStep_header {l : GCodeLine ℚ} (st : GroupState)
    (h : noLaserCmd l) (hc : st.current_path = none) (hb : st.burn_paths = []) :
    groupStep st l =
      { st with header := st.header ++ [l],
                cur_x := l.x.getD st.cur_x, cur_y := l.y.getD st.cur_y } := by
  obtain ⟨h3, h4, h5⟩ := h
  unfold groupStep
  rw [if_neg (by rintro (hx | hx) <;> [exact h3 hx; exact h4 hx]), if_neg h5, hc]
  rw [if_neg (by rw [hb]; simp)]

theorem groupStep_footer {l : GCodeLine ℚ} (st : GroupState)
    (h : noLaserCmd l) (hc : st.current_path = none) (hb : st.burn_paths ≠ []) :
    groupStep st l = { st with footer := st.footer ++ [l] } := by
  obtain ⟨h3, h4, h5⟩ := h
  unfold groupStep
  rw [if_neg (by rintro (hx | hx) <;> [exact h3 hx; exact h4 hx]), if_neg h5, hc]
  rw [if_pos hb]

theorem selectBest_eq_fold (lx ly : ℚ) (remaining : List BurnPath) :
    selectBest lx ly remaining =
      (remaining.enum.foldl
        (selStep ((remaining.map (·.nesting_level)).max?.getD 0) lx ly) none).map
        Prod.fst := by
  unfold selectBest selStep
  rfl

theorem selStep_fold_spec (m : ℕ) (lx ly : ℚ) :
    ∀ (l : List (ℕ × BurnPath)) (acc : Option (ℕ × ℚ)) (bi : ℕ) (bd : ℚ),
      l.foldl (selStep m lx ly) acc = some (bi, bd) →
      ((acc = some (bi, bd)) ∨
        (∃ p, (bi, p) ∈ l ∧ p.nesting_level = m ∧ bd = distSq lx ly p)) ∧
      (∀ jp ∈ l, jp.2.nesting_level = m → bd ≤ distSq lx ly jp.2) ∧
      (∀ ai ad, acc = some (ai, ad) → bd ≤ ad) := by
  intro l
  induction l with
  | nil =>
    intro acc bi bd h
    simp only [List.foldl_nil] at h
    exact ⟨Or.inl h, by simp, fun ai ad ha => by rw [h] at ha; cases ha; exact le_refl _⟩
  | cons hd tl ih =>
    intro acc bi bd h
    simp only [List.foldl_cons] at h
    have hstep := ih (selStep m lx ly acc hd) bi bd h
    by_cases hm : hd.2.nesting_level = m
    · rcases hacc : acc with _ | ⟨ai, ad⟩
      · rw [hacc] at hstep
        have hsel : selStep m lx ly none hd = some (hd.1, distSq lx ly hd.2) := by
          unfold selStep
          rw [if_pos hm]
        rw [hsel] at hstep
        refine ⟨?_, ?_, ?_⟩
        · rcases hstep.1 with heq | ⟨p, hp, hpm, hpd⟩
          · cases heq
            exact Or.inr ⟨hd.2, List.mem_cons_self _ _, hm, rfl⟩
          · exact Or.inr ⟨p, List.mem_cons_of_mem _ hp, hpm, hpd⟩
        · intro jp hjp hjm
          rcases List.mem_cons.mp hjp with heq | hmem
          · rw [heq]
            exact hstep.2.2 hd.1 (distSq lx ly hd.2) rfl
          · exact hstep.2.1 jp hmem hjm
        · intro ai ad ha
          exact absurd ha (by simp)
      · rw [hacc] at hstep
        have hsel : selStep m lx ly (some (ai, ad)) hd =
            if distSq lx ly hd.2 < ad then some (hd.1, distSq lx ly hd.2)
            else some (ai, ad) := by
          unfold selStep
          rw [if_pos hm]
        rw [hsel] at hstep
        by_cases hlt : distSq lx ly hd.2 < ad
        · rw [if_pos hlt] at hstep
          refine ⟨?_, ?_, ?_⟩
          · rcases hstep.1 with heq | ⟨p, hp, hpm, hpd⟩
            · cases heq
              exact Or.inr ⟨hd.2, List.mem_cons_self _ _, hm, rfl⟩
            · exact Or.inr ⟨p, List.mem_cons_of_mem _ hp, hpm, hpd⟩
          · intro jp hjp hjm
            rcases List.mem_cons.mp hjp with heq | hmem
            · rw [heq]
              exact hstep.2.2 hd.1 (distSq lx ly hd.2) rfl
            · exact hstep.2.1 jp hmem hjm
          · intro ai2 ad2 ha
            cases ha
            exact le_of_lt (lt_of_le_of_lt (hstep.2.2 hd.1 (distSq lx ly hd.2) rfl) hlt)
        · rw [if_neg hlt] at hstep
          refine ⟨?_, ?_, ?_⟩
          · rcases hstep.1 with heq | ⟨p, hp, hpm, hpd⟩
            · cases heq
              exact Or.inl rfl
            · exact Or.inr ⟨p, List.mem_cons_of_mem _ hp, hpm, hpd⟩
          · intro jp hjp hjm
            rcases List.mem_cons.mp hjp with heq | hmem
            · rw [heq]
              exact le_trans (hstep.2.2 ai ad rfl) (not_lt.mp hlt)
            · exact hstep.2.1 jp hmem hjm
          · intro ai2 ad2 ha
            cases ha
            exact hstep.2.2 ai ad rfl
    · have hsel : selStep m lx ly acc hd = acc := by
        unfold selStep
        rw [if_neg hm]
      rw [hsel] at hstep
      refine ⟨?_, ?_, hstep.2.2⟩
      · rcases hstep.1 with heq | ⟨p, hp, hpm, hpd⟩
        · exact Or.inl heq
        · exact Or.inr ⟨p, List.mem_cons_of_mem _ hp, hpm, hpd⟩
      · intro jp hjp hjm
        rcases List.mem_cons.mp hjp with heq | hmem
        · rw [heq] at hjm
          exact absurd hjm hm
        · exact hstep.2.1 jp hmem hjm

theorem selectBest_argmin (lx ly : ℚ) (remaining : List BurnPath) (i : ℕ)
    (h : selectBest lx ly remaining = some i) :
    i < remaining.length ∧
    (remaining.getD i default).nesting_level
        = ((remaining.map (·.nesting_level)).max?.getD 0) ∧
    ∀ j, j < remaining.length →
      (remaining.getD j default).nesting_level
          = ((remaining.map (·.nesting_level)).max?.getD 0) →
      distSq lx ly (remaining.getD i default)
        ≤ distSq lx ly (remaining.getD j default) := by
  rw [selectBest_eq_fold] at h
  rcases hfold : remaining.enum.foldl
      (selStep ((remaining.map (·.nesting_level)).max?.getD 0) lx ly) none
    with _ | ⟨bi, bd⟩
  · rw [hfold] at h
    exact absurd h (by simp)
  · rw [hfold] at h
    simp only [Option.map_some', Option.some.injEq] at h
    subst h
    have hspec := selStep_fold_spec ((remaining.map (·.nesting_level)).max?.getD 0)
      lx ly remaining.enum none bi bd hfold
    rcases hspec.1 with heq | ⟨p, hmem, hpm, hpd⟩
    · exact absurd heq (by simp)
    · have hget : remaining[bi]? = some p := by
        simpa using (List.mk_mem_enum_iff_getElem?).mp hmem
      have hlen : bi < remaining.length := by
        by_contra hge
        rw [List.getElem?_eq_none (by omega)] at hget
        exact Option.noConfusion hget
      have hgd : remaining.getD bi default = p := by
        simp [List.getD, hget]
      refine ⟨hlen, by rw [hgd, hpm], ?_⟩
      intro j hj hjm
      have hjmem : (j, remaining.getD j default) ∈ remaining.enum := by
        apply (List.mk_mem_enum_iff_getElem?).mpr
        simp [List.getD, List.getElem?_eq_getElem hj]
      have := hspec.2.1 (j, remaining.getD j default) hjmem hjm
      rw [hgd, ← hpd]
      exact this

end Optimizer

namespace Optimizer

open GCode

theorem foldl_body {body : List (GCodeLine ℚ)} :
    ∀ (st : GroupState) (p : BurnPath), (∀ l ∈ body, noLaserCmd l) →
    st.current_path = some p →
    ∃ p' cx cy, body.foldl groupStep st =
      { st with current_path := some p', cur_x := cx, cur_y := cy } ∧
      p'.lines = p.lines ++ body := by
  induction body with
  | nil =>
    intro st p _ hc
    refine ⟨p, st.cur_x, st.cur_y, ?_, by simp⟩
    simp only [List.foldl_nil]
    rw [← hc]
  | cons l rest ih =>
    intro st p hno hc
    simp only [List.foldl_cons]
    rw [groupStep_body st (hno l (List.mem_cons_self _ _)) hc]
    obtain ⟨p', cx, cy, heq, hlines⟩ :=
      ih { st with current_path := some (pathUpdate p l),
                   cur_x := l.x.getD st.cur_x, cur_y := l.y.getD st.cur_y }
        (pathUpdate p l) (fun l' hl' => hno l' (List.mem_cons_of_mem _ hl')) rfl
    refine ⟨p', cx, cy, by rw [heq], ?_⟩
    rw [hlines]
    show (pathUpdate p l).lines ++ rest = p.lines ++ l :: rest
    unfold pathUpdate
    simp

theorem foldl_gap {gap : List (GCodeLine ℚ)} :
    ∀ (st : GroupState), (∀ l ∈ gap, noLaserCmd l) →
    st.current_path = none → st.burn_paths ≠ [] →
    gap.foldl groupStep st = { st with footer := st.footer ++ gap } := by
  induction gap with
  | nil =>
    intro st _ _ _
    simp
  | cons l rest ih =>
    intro st hno hc hb
    simp only [List.foldl_cons]
    rw [groupStep_footer st (hno l (List.mem_cons_self _ _)) hc hb]
    rw [ih { st with footer := st.footer ++ [l] }
      (fun l' hl' => hno l' (List.mem_cons_of_mem _ hl')) hc hb]
    simp

theorem foldl_hdr {hdr : List (GCodeLine ℚ)} :
    ∀ (st : GroupState), (∀ l ∈ hdr, noLaserCmd l) →
    st.current_path = none → st.burn_paths = [] →
    ∃ cx cy, hdr.foldl groupStep st =
      { st with header := st.header ++ hdr, cur_x := cx, cur_y := cy } := by
  induction hdr with
  | nil =>
    intro st _ _ _
    exact ⟨st.cur_x, st.cur_y, by simp⟩
  | cons l rest ih =>
    intro st hno hc hb
    simp only [List.foldl_cons]
    rw [groupStep_header st (hno l (List.mem_cons_self _ _)) hc hb]
    obtain ⟨cx, cy, heq⟩ :=
      ih { st with header := st.header ++ [l],
                   cur_x := l.x.getD st.cur_x, cur_y := l.y.getD st.cur_y }
        (fun l' hl' => hno l' (List.mem_cons_of_mem _ hl')) hc hb
    exact ⟨cx, cy, by rw [heq]; simp⟩

theorem foldl_span {g : Group} (st : GroupState) (hwf : g.wf) :
    ∃ p cx cy, g.span.foldl groupStep st =
      { st with current_path := none, laser_on := false, cur_x := cx, cur_y := cy,
                burn_paths := st.burn_paths ++ [p] } ∧
      p.lines = g.span := by
  obtain ⟨hon, hbody, hoff, -⟩ := hwf
  show ∃ p cx cy, (g.onLine :: (g.body ++ [g.offLine])).foldl groupStep st = _ ∧ _
  simp only [List.foldl_cons]
  rw [groupStep_on st hon]
  obtain ⟨p', cx, cy, heq, hlines⟩ := foldl_body
    { st with laser_on := true,
              current_path := some (newPath st.cur_x st.cur_y g.onLine) }
    (newPath st.cur_x st.cur_y g.onLine) hbody rfl
  rw [List.foldl_append, heq]
  simp only [List.foldl_cons, List.foldl_nil]
  rw [groupStep_off_some _ hoff rfl]
  refine ⟨_, cx, cy, rfl, ?_⟩
  show p'.lines ++ [g.offLine] = g.span
  rw [hlines]
  show (newPath st.cur_x st.cur_y g.onLine).lines ++ g.body ++ [g.offLine] = g.span
  unfold newPath Group.span
  simp

theorem foldl_chain {groups : List Group} :
    ∀ (st : GroupState), (∀ g ∈ groups, g.wf) → st.current_path = none →
    ∃ ps cx cy b, (chainLines groups).foldl groupStep st =
      { header := st.header, footer := st.footer ++ groups.flatMap (·.gap),
        burn_paths := st.burn_paths ++ ps, current_path := none,
        cur_x := cx, cur_y := cy, laser_on := b } ∧
      ps.map (·.lines) = groups.map (·.span) := by
  induction groups with
  | nil =>
    intro st _ hc
    refine ⟨[], st.cur_x, st.cur_y, st.laser_on, ?_, by simp⟩
    simp only [chainLines, List.flatMap_nil, List.foldl_nil, List.append_nil]
    rw [← hc]
  | cons g rest ih =>
    intro st hwf hc
    have hchain : chainLines (g :: rest) = (g.span ++ g.gap) ++ chainLines rest := by
      simp [chainLines]
    rw [hchain, List.foldl_append, List.foldl_append]
    obtain ⟨p, cx1, cy1, heq1, hlines1⟩ :=
      foldl_span st (hwf g (List.mem_cons_self _ _))
    rw [heq1]
    rw [foldl_gap _ ((hwf g (List.mem_cons_self _ _)).2.2.2) rfl (by simp)]
    show ∃ ps cx cy b, (chainLines rest).foldl groupStep
        ⟨st.header, st.footer ++ g.gap, st.burn_paths ++ [p], none, cx1, cy1, false⟩ =
      { header := st.header, footer := st.footer ++ (g :: rest).flatMap (·.gap),
        burn_paths := st.burn_paths ++ ps, current_path := none,
        cur_x := cx, cur_y := cy, laser_on := b } ∧
      ps.map (·.lines) = (g :: rest).map (·.span)
    obtain ⟨ps, cx, cy, b, heq2, hlines2⟩ := ih
      ⟨st.header, st.footer ++ g.gap, st.burn_paths ++ [p], none, cx1, cy1, false⟩
      (fun g' hg' => hwf g' (List.mem_cons_of_mem _ hg')) rfl
    refine ⟨p :: ps, cx, cy, b, ?_, by simp [hlines1, hlines2]⟩
    rw [heq2]
    simp

theorem foldl_groupStep_partition (hdr : List (GCodeLine ℚ)) (groups : List Group)
    (hhdr : ∀ l ∈ hdr, noLaserCmd l) (hwf : ∀ g ∈ groups, g.wf) :
    ∃ ps cx cy b,
      (hdr ++ chainLines groups).foldl groupStep GroupState.init =
        { header := hdr, footer := groups.flatMap (·.gap), burn_paths := ps,
          current_path := none, cur_x := cx, cur_y := cy, laser_on := b } ∧
      ps.map (·.lines) = groups.map (·.span) := by
  rw [List.foldl_append]
  obtain ⟨cx1, cy1, heq1⟩ := foldl_hdr GroupState.init hhdr rfl rfl
  rw [heq1]
  show ∃ ps cx cy b, (chainLines groups).foldl groupStep
      ⟨hdr, [], [], none, cx1, cy1, false⟩ = _ ∧ _
  obtain ⟨ps, cx, cy, b, heq2, hlines2⟩ :=
    foldl_chain ⟨hdr, [], [], none, cx1, cy1, false⟩ hwf rfl
  refine ⟨ps, cx, cy, b, ?_, hlines2⟩
  rw [heq2]
  simp

end Optimizer
namespace Optimizer
open GCode

theorem exInput_fold : exInput.foldl groupStep GroupState.init =
    ⟨[lnHdr], [], [pathA, pathB], none, 50, 50, false⟩ := by
  have h1 : groupStep GroupState.init lnHdr = ⟨[lnHdr], [], [], none, 20, 20, false⟩ := by
    rw [groupStep_header _ (by decide) rfl rfl]
    norm_num [GroupState.init, lnHdr]
  have h2 : groupStep ⟨[lnHdr], [], [], none, 20, 20, false⟩ mA =
      ⟨[lnHdr], [], [], some ⟨20, 20, 20, 20, 20, 20, 20, 20, [mA], 0⟩, 20, 20, true⟩ := by
    rw [groupStep_on _ (by decide)]
    norm_num [newPath]
  have h3 : groupStep
      ⟨[lnHdr], [], [], some ⟨20, 20, 20, 20, 20, 20, 20, 20, [mA], 0⟩, 20, 20, true⟩ a1 =
      ⟨[lnHdr], [], [], some ⟨20, 20, 0, 0, 0, 0, 20, 20, [mA, a1], 0⟩, 0, 0, true⟩ := by
    rw [groupStep_body _ (by decide) rfl]
    norm_num [pathUpdate, a1, min_def, max_def]
  have h4 : groupStep
      ⟨[lnHdr], [], [], some ⟨20, 20, 0, 0, 0, 0, 20, 20, [mA, a1], 0⟩, 0, 0, true⟩ a2 =
      ⟨[lnHdr], [], [], some ⟨20, 20, 100, 100, 0, 0, 100, 100, [mA, a1, a2], 0⟩, 100, 100, true⟩ := by
    rw [groupStep_body _ (by decide) rfl]
    norm_num [pathUpdate, a2, min_def, max_def]
  have h5 : groupStep
      ⟨[lnHdr], [], [], some ⟨20, 20, 100, 100, 0, 0, 100, 100, [mA, a1, a2], 0⟩, 100, 100, true⟩ a3 =
      ⟨[lnHdr], [], [], some ⟨20, 20, 30, 30, 0, 0, 100, 100, [mA, a1, a2, a3], 0⟩, 30, 30, true⟩ := by
    rw [groupStep_body _ (by decide) rfl]
    norm_num [pathUpdate, a3, min_def, max_def]
  have h6 : groupStep
      ⟨[lnHdr], [], [], some ⟨20, 20, 30, 30, 0, 0, 100, 100, [mA, a1, a2, a3], 0⟩, 30, 30, true⟩ m5A =
      ⟨[lnHdr], [], [pathA], none, 30, 30, false⟩ := by
    rw [groupStep_off_some _ (by decide) rfl]
    norm_num [pathA]
  have h7 : groupStep ⟨[lnHdr], [], [pathA], none, 30, 30, false⟩ mB =
      ⟨[lnHdr], [], [pathA], some ⟨30, 30, 30, 30, 30, 30, 30, 30, [mB], 0⟩, 30, 30, true⟩ := by
    rw [groupStep_on _ (by decide)]
    norm_num [newPath]
  have h8 : groupStep
      ⟨[lnHdr], [], [pathA], some ⟨30, 30, 30, 30, 30, 30, 30, 30, [mB], 0⟩, 30, 30, true⟩ b1 =
      ⟨[lnHdr], [], [pathA], some ⟨30, 30, 10, 10, 10, 10, 30, 30, [mB, b1], 0⟩, 10, 10, true⟩ := by
    rw [groupStep_body _ (by decide) rfl]
    norm_num [pathUpdate, b1, min_def, max_def]
  have h9 : groupStep
      ⟨[lnHdr], [], [pathA], some ⟨30, 30, 10, 10, 10, 10, 30, 30, [mB, b1], 0⟩, 10, 10, true⟩ b2 =
      ⟨[lnHdr], [], [pathA], some ⟨30, 30, 50, 50, 10, 10, 50, 50, [mB, b1, b2], 0⟩, 50, 50, true⟩ := by
    rw [groupStep_body _ (by decide) rfl]
    norm_num [pathUpdate, b2, min_def, max_def]
  have h10 : groupStep
      ⟨[lnHdr], [], [pathA], some ⟨30, 30, 50, 50, 10, 10, 50, 50, [mB, b1, b2], 0⟩, 50, 50, true⟩ m5B =
      ⟨[lnHdr], [], [pathA, pathB], none, 50, 50, false⟩ := by
    rw [groupStep_off_some _ (by decide) rfl]
    norm_num [pathB]
  simp only [exInput, List.foldl_cons, List.foldl_nil, h1, h2, h3, h4, h5, h6, h7, h8, h9, h10]

theorem exInput_nesting : assignNesting [pathA, pathB] =
    [pathA, { pathB with nesting_level := 1 }] := by
  norm_num [assignNesting, insideBBox, pathA, pathB, List.range_succ, List.getD]

theorem exInput_optimize : optimize exInput =
    [lnHdr] ++ pathB.lines ++ pathA.lines := by
  unfold optimize
  rw [if_neg (by simp [exInput])]
  rw [exInput_fold]
  show [lnHdr] ++ greedyGo (assignNesting [pathA, pathB]).length 50 50
      (assignNesting [pathA, pathB]) ++ [] = [lnHdr] ++ pathB.lines ++ pathA.lines
  rw [exInput_nesting]
  norm_num [greedyGo, selectBest, distSq, pathA, pathB, List.enum, List.enumFrom,
    min_def, max_def]

end Optimizer

namespace Optimizer
open GCode

theorem exInput4_fold : exInput4.foldl groupStep GroupState.init =
    ⟨[haLine], [c7Line], [pathP], some ⟨0, 0, 10, 10, 0, 0, 10, 10, [m4Line, b1], 0⟩,
      10, 10, true⟩ := by
  have h1 : groupStep GroupState.init haLine = ⟨[haLine], [], [], none, 1, 0, false⟩ := by
    rw [groupStep_header _ (by decide) rfl rfl]
    norm_num [GroupState.init, haLine]
  have h2 : groupStep ⟨[haLine], [], [], none, 1, 0, false⟩ mA =
      ⟨[haLine], [], [], some ⟨1, 0, 1, 0, 1, 0, 1, 0, [mA], 0⟩, 1, 0, true⟩ := by
    rw [groupStep_on _ (by decide)]
    norm_num [newPath]
  have h3 : groupStep ⟨[haLine], [], [], some ⟨1, 0, 1, 0, 1, 0, 1, 0, [mA], 0⟩, 1, 0, true⟩ a1 =
      ⟨[haLine], [], [], some ⟨1, 0, 0, 0, 0, 0, 1, 0, [mA, a1], 0⟩, 0, 0, true⟩ := by
    rw [groupStep_body _ (by decide) rfl]
    norm_num [pathUpdate, a1, min_def, max_def]
  have h4 : groupStep ⟨[haLine], [], [], some ⟨1, 0, 0, 0, 0, 0, 1, 0, [mA, a1], 0⟩, 0, 0, true⟩ m5A =
      ⟨[haLine], [], [pathP], none, 0, 0, false⟩ := by
    rw [groupStep_off_some _ (by decide) rfl]
    norm_num [pathP]
  have h5 : groupStep ⟨[haLine], [], [pathP], none, 0, 0, false⟩ c7Line =
      ⟨[haLine], [c7Line], [pathP], none, 0, 0, false⟩ := by
    rw [groupStep_footer _ (by decide) rfl (by simp)]
    simp
  have h6 : groupStep ⟨[haLine], [c7Line], [pathP], none, 0, 0, false⟩ m4Line =
      ⟨[haLine], [c7Line], [pathP], some ⟨0, 0, 0, 0, 0, 0, 0, 0, [m4Line], 0⟩, 0, 0, true⟩ := by
    rw [groupStep_on _ (by decide)]
    norm_num [newPath]
  have h7 : groupStep
      ⟨[haLine], [c7Line], [pathP], some ⟨0, 0, 0, 0, 0, 0, 0, 0, [m4Line], 0⟩, 0, 0, true⟩ b1 =
      ⟨[haLine], [c7Line], [pathP], some ⟨0, 0, 10, 10, 0, 0, 10, 10, [m4Line, b1], 0⟩,
        10, 10, true⟩ := by
    rw [groupStep_body _ (by decide) rfl]
    norm_num [pathUpdate, b1, min_def, max_def]
  simp only [exInput4, List.foldl_cons, List.foldl_nil, h1, h2, h3, h4, h5, h6, h7]

theorem exInput4_optimize : optimize exInput4 = [haLine] ++ pathP.lines ++ [c7Line] := by
  unfold optimize
  rw [if_neg (by simp [exInput4])]
  rw [exInput4_fold]
  show [haLine] ++ greedyGo (assignNesting [pathP]).length 10 10
      (assignNesting [pathP]) ++ [c7Line] = [haLine] ++ pathP.lines ++ [c7Line]
  have hnest : assignNesting [pathP] = [pathP] := by
    norm_num [assignNesting, insideBBox, pathP, List.range_succ, List.getD]
  rw [hnest]
  norm_num [greedyGo, selectBest, distSq, pathP, List.enum, List.enumFrom]

end Optimizer

open Optimizer in
/-- C3: the optimizer orders burn paths by nesting tier then proximity.
First conjunct (the general selection step): whenever `selectBest` picks an
index, that path is at the maximum remaining nesting level and its start
point has minimum squared distance to the tool position among all paths at
that level.  Second conjunct: for paths A (bbox 0..100 on both axes),
B (bbox 10..50, nested in A) and C (bbox 200..250, disjoint), the greedy
loop over the nesting assignment emits B's lines before A's.  Third
conjunct: end-to-end, `optimize` on a program containing path A before the
nested path B reorders B's span before A's. -/
theorem C3_optimize_nesting_greedy :
    (∀ (lx ly : ℚ) (remaining : List BurnPath) (i : ℕ),
      selectBest lx ly remaining = some i →
      i < remaining.length ∧
      (remaining.getD i default).nesting_level
          = ((remaining.map (·.nesting_level)).max?.getD 0) ∧
      ∀ j, j < remaining.length →
        (remaining.getD j default).nesting_level
            = ((remaining.map (·.nesting_level)).max?.getD 0) →
        distSq lx ly (remaining.getD i default)
          ≤ distSq lx ly (remaining.getD j default)) ∧
    (greedyGo 3 0 0 (assignNesting
      [⟨5, 5, 90, 90, 0, 0, 100, 100, [{ raw := "A" }], 0⟩,
       ⟨20, 20, 50, 50, 10, 10, 50, 50, [{ raw := "B" }], 0⟩,
       ⟨200, 200, 250, 250, 200, 200, 250, 250, [{ raw := "C" }], 0⟩])).map (·.raw)
      = ["B", "A", "C"] ∧
    (optimize exInput).map (·.raw)
      = ["G0 X20 Y20",
         "M3 B", "G1 X10 Y10", "G1 X50 Y50", "M5 B",
         "M3 A", "G1 X0 Y0", "G1 X100 Y100", "G1 X30 Y30", "M5 A"] := by
  refine ⟨selectBest_argmin, ?_, ?_⟩
  · norm_num [greedyGo, assignNesting, selectBest, distSq, insideBBox,
      List.enum, List.enumFrom, List.range_succ, min_def, max_def]
  · rw [exInput_optimize]
    norm_num [pathA, pathB, lnHdr, mA, a1, a2, a3, m5A, mB, b1, b2, m5B]

/-- C3 witness: `C3_optimize_nesting_greedy`'s selection-step conjunct
applied to a concrete one-path list. -/
theorem C3_optimize_nesting_greedy_witness :
    0 < ([(default : Optimizer.BurnPath)] : List Optimizer.BurnPath).length ∧
    (([(default : Optimizer.BurnPath)] : List Optimizer.BurnPath).getD 0
        default).nesting_level =
      ((([(default : Optimizer.BurnPath)] : List Optimizer.BurnPath).map
        (·.nesting_level)).max?.getD 0) := by
  have h := C3_optimize_nesting_greedy.1 0 0 [default] 0 rfl
  exact ⟨h.1, h.2.1⟩

open Optimizer in
/-- C4 counterexample: on a program whose trailing `M4` group is never
closed by `M5`, the optimizer output is not claim-header ++ span-lines ++
claim-footer: the code's footer keeps only the gap line (`G0 X7`) while the
claimed footer — the lines following the last `M5` — also contains the
unterminated `M4` group, whose lines are silently dropped from the
output. -/
theorem C4_optimize_partition_counterexample :
    optimize exInput4 = [haLine, mA, a1, m5A, c7Line] ∧
    specHeader exInput4 = [haLine] ∧
    specFooter exInput4 = [c7Line, m4Line, b1] ∧
    optimize exInput4 ≠
      specHeader exInput4 ++ [mA, a1, m5A] ++ specFooter exInput4 := by
  have h1 : optimize exInput4 = [haLine, mA, a1, m5A, c7Line] := by
    rw [exInput4_optimize]
    norm_num [pathP]
  have h2 : specHeader exInput4 = [haLine] := by decide
  have h3 : specFooter exInput4 = [c7Line, m4Line, b1] := by decide
  refine ⟨h1, h2, h3, ?_⟩
  rw [h1, h2, h3]
  intro hcontr
  exact absurd (congrArg List.length hcontr) (by simp)

open Optimizer in
/-- C4 (amended): for programs shaped as a laser-free header followed by
well-formed `M3`/`M4`-through-`M5` groups with laser-free gap lines after
each, `optimize` returns the header, then the greedy reordering of the
recovered burn paths — whose line lists are exactly the groups' spans —
then all gap lines in input order (the code's footer; not merely the lines
after the last `M5`).  Inputs with stray `M5`s or unterminated groups are
excluded, since the code drops such lines. -/
theorem C4_optimize_partition (hdr : List (GCode.GCodeLine ℚ)) (groups : List Group)
    (hhdr : ∀ l ∈ hdr, noLaserCmd l) (hwf : ∀ g ∈ groups, g.wf)
    (hne : hdr ++ chainLines groups ≠ []) :
    ∃ ps cx cy,
      ps.map (·.lines) = groups.map (·.span) ∧
      optimize (hdr ++ chainLines groups) =
        hdr ++ greedyGo (assignNesting ps).length cx cy (assignNesting ps)
          ++ groups.flatMap (·.gap) := by
  obtain ⟨ps, cx, cy, b, heq, hlines⟩ := foldl_groupStep_partition hdr groups hhdr hwf
  refine ⟨ps, cx, cy, hlines, ?_⟩
  unfold optimize
  rw [if_neg (by simpa using hne)]
  rw [heq]

/-- C4 witness: `C4_optimize_partition` applied to the concrete two-group
program `exInput` (header plus groups A and B with empty gaps). -/
theorem C4_optimize_partition_witness :
    ∃ ps cx cy,
      ps.map (·.lines) =
        ([⟨Optimizer.mA, [Optimizer.a1, Optimizer.a2, Optimizer.a3], Optimizer.m5A, []⟩,
          ⟨Optimizer.mB, [Optimizer.b1, Optimizer.b2], Optimizer.m5B, []⟩] :
          List Optimizer.Group).map (·.span) ∧
      Optimizer.optimize ([Optimizer.lnHdr] ++ Optimizer.chainLines
          [⟨Optimizer.mA, [Optimizer.a1, Optimizer.a2, Optimizer.a3], Optimizer.m5A, []⟩,
           ⟨Optimizer.mB, [Optimizer.b1, Optimizer.b2], Optimizer.m5B, []⟩]) =
        [Optimizer.lnHdr] ++ Optimizer.greedyGo
            (Optimizer.assignNesting ps).length cx cy (Optimizer.assignNesting ps)
          ++ ([⟨Optimizer.mA, [Optimizer.a1, Optimizer.a2, Optimizer.a3], Optimizer.m5A, []⟩,
               ⟨Optimizer.mB, [Optimizer.b1, Optimizer.b2], Optimizer.m5B, []⟩] :
              List Optimizer.Group).flatMap (·.gap) := by
  exact C4_optimize_partition [Optimizer.lnHdr]
    [⟨Optimizer.mA, [Optimizer.a1, Optimizer.a2, Optimizer.a3], Optimizer.m5A, []⟩,
     ⟨Optimizer.mB, [Optimizer.b1, Optimizer.b2], Optimizer.m5B, []⟩]
    (by decide) (by decide) (by simp [Optimizer.chainLines])

namespace JobRunner

theorem sendNextGo_spec (cmdOf : ℕ → String) (lines : List String) :
    ∀ (fuel idx : ℕ), fuel = lines.length - idx → idx ≤ lines.length →
    idx ≤ (sendNextGo cmdOf lines fuel idx).1 ∧
    (sendNextGo cmdOf lines fuel idx).1 ≤ lines.length ∧
    (sendableFrom cmdOf lines fuel idx = 0 →
      (sendNextGo cmdOf lines fuel idx).2 = none ∧
      (sendNextGo cmdOf lines fuel idx).1 = lines.length) ∧
    (sendableFrom cmdOf lines fuel idx ≠ 0 →
      (sendNextGo cmdOf lines fuel idx).2.isSome ∧
      sendableFrom cmdOf lines (lines.length - (sendNextGo cmdOf lines fuel idx).1)
          (sendNextGo cmdOf lines fuel idx).1
        = sendableFrom cmdOf lines fuel idx - 1) := by
  intro fuel
  induction fuel with
  | zero =>
    intro idx hfuel hidx
    have hlen : idx = lines.length := by omega
    have hz : sendNextGo cmdOf lines 0 idx = (idx, none) := rfl
    have hz2 : sendableFrom cmdOf lines 0 idx = 0 := rfl
    rw [hz, hz2]
    exact ⟨le_refl _, by omega, fun _ => ⟨rfl, hlen⟩, fun hne => absurd rfl hne⟩
  | succ fuel ih =>
    intro idx hfuel hidx
    have hlt : idx < lines.length := by omega
    by_cases hskip : skipLine (cmdOf idx)
    · have hgo : sendNextGo cmdOf lines (fuel + 1) idx =
          sendNextGo cmdOf lines fuel (idx + 1) := by
        rw [sendNextGo]
        rw [if_pos hlt]
        simp only [if_pos hskip]
      have hsf : sendableFrom cmdOf lines (fuel + 1) idx =
          sendableFrom cmdOf lines fuel (idx + 1) := by
        rw [sendableFrom]
        rw [if_pos hlt, if_pos hskip, zero_add]
      obtain ⟨ih1, ih2, ih3, ih4⟩ := ih (idx + 1) (by omega) (by omega)
      rw [hgo, hsf]
      exact ⟨by omega, ih2, ih3, ih4⟩
    · have hgo : sendNextGo cmdOf lines (fuel + 1) idx =
          (idx + 1, some ⟨StringModel.trimChars (StringModel.chars (cmdOf idx))⟩) := by
        rw [sendNextGo]
        rw [if_pos hlt]
        simp only [if_neg hskip]
      have hsf : sendableFrom cmdOf lines (fuel + 1) idx =
          1 + sendableFrom cmdOf lines fuel (idx + 1) := by
        rw [sendableFrom]
        rw [if_pos hlt, if_neg hskip]
      rw [hgo, hsf]
      refine ⟨by omega, by omega, fun h0 => absurd h0 (by omega), fun _ => ⟨rfl, ?_⟩⟩
      show sendableFrom cmdOf lines (lines.length - (idx + 1)) (idx + 1)
        = 1 + sendableFrom cmdOf lines fuel (idx + 1) - 1
      have h5 : lines.length - (idx + 1) = fuel := by omega
      rw [h5]
      omega

theorem driveOks_count (cmdOf : ℕ → String) :
    ∀ (k : ℕ) (st : JobState), st.program_index ≤ st.program_lines.length →
    (driveOks cmdOf k st).1.program_lines = st.program_lines ∧
    st.program_index ≤ (driveOks cmdOf k st).1.program_index ∧
    (driveOks cmdOf k st).1.program_index ≤ st.program_lines.length ∧
    (driveOks cmdOf k st).2.length =
      (if st.running then
        min k (sendableFrom cmdOf st.program_lines
          (st.program_lines.length - st.program_index) st.program_index)
      else 0) := by
  intro k
  induction k with
  | zero =>
    intro st hst
    have hz : driveOks cmdOf 0 st = (st, []) := rfl
    rw [hz]
    refine ⟨rfl, le_refl _, hst, ?_⟩
    by_cases hr : st.running <;> simp [hr]
  | succ k ih =>
    intro st hst
    have hd : driveOks cmdOf (k + 1) st =
        ((driveOks cmdOf k (handle_ok cmdOf st).1).1,
         (handle_ok cmdOf st).2.toList ++ (driveOks cmdOf k (handle_ok cmdOf st).1).2) := rfl
    rw [hd]
    by_cases hr : st.running
    · by_cases hlt : st.program_index < st.program_lines.length
      · have hho : handle_ok cmdOf st = send_next_program_line cmdOf st := by
          unfold handle_ok
          rw [if_pos ⟨hr, hlt⟩]
        have hsn : send_next_program_line cmdOf st =
            ({ st with program_index := (sendNextGo cmdOf st.program_lines
                (st.program_lines.length - st.program_index) st.program_index).1 },
             (sendNextGo cmdOf st.program_lines
                (st.program_lines.length - st.program_index) st.program_index).2) := rfl
        obtain ⟨s1, s2, s3, s4⟩ := sendNextGo_spec cmdOf st.program_lines
          (st.program_lines.length - st.program_index) st.program_index rfl hst
        by_cases hS : sendableFrom cmdOf st.program_lines
            (st.program_lines.length - st.program_index) st.program_index = 0
        · obtain ⟨hnone, hend⟩ := s3 hS
          obtain ⟨i1, i2, i3, i4⟩ := ih (handle_ok cmdOf st).1
            (by rw [hho, hsn]; simpa using hend.le)
          have hrun : (handle_ok cmdOf st).1.running = st.running := by rw [hho, hsn]
          have hlines : (handle_ok cmdOf st).1.program_lines = st.program_lines := by
            rw [hho, hsn]
          have hidx : (handle_ok cmdOf st).1.program_index = st.program_lines.length := by
            rw [hho, hsn]; exact hend
          refine ⟨by rw [i1, hlines], ?_, by rw [hlines] at i3; exact i3, ?_⟩
          · calc st.program_index ≤ (handle_ok cmdOf st).1.program_index := by
                  rw [hho, hsn]; exact s1
              _ ≤ _ := i2
          · have hnil : (handle_ok cmdOf st).2 = none := by rw [hho, hsn]; exact hnone
            rw [hnil]
            simp only [Option.toList_none, List.nil_append]
            rw [i4, hrun, hlines, hidx, if_pos hr, if_pos hr, hS]
            have h0 : sendableFrom cmdOf st.program_lines
                (st.program_lines.length - st.program_lines.length)
                st.program_lines.length = 0 := by
              rw [Nat.sub_self]
              rfl
            rw [h0]
            omega
        · obtain ⟨hsome, hdec⟩ := s4 hS
          obtain ⟨i1, i2, i3, i4⟩ := ih (handle_ok cmdOf st).1
            (by rw [hho, hsn]; simpa using s2)
          have hrun : (handle_ok cmdOf st).1.running = st.running := by rw [hho, hsn]
          have hlines : (handle_ok cmdOf st).1.program_lines = st.program_lines := by
            rw [hho, hsn]
          have hidx : (handle_ok cmdOf st).1.program_index =
              (sendNextGo cmdOf st.program_lines
                (st.program_lines.length - st.program_index) st.program_index).1 := by
            rw [hho, hsn]
          refine ⟨by rw [i1, hlines], ?_, by rw [hlines] at i3; exact i3, ?_⟩
          · calc st.program_index ≤ (handle_ok cmdOf st).1.program_index := by
                  rw [hidx]; exact s1
              _ ≤ _ := i2
          · have hlen1 : (handle_ok cmdOf st).2.toList.length = 1 := by
              rw [hho, hsn]
              obtain ⟨v, hv⟩ := Option.isSome_iff_exists.mp hsome
              simp [hv]
            rw [List.length_append, hlen1, i4, hrun, hlines, hidx, if_pos hr,
              if_pos hr, hdec]
            omega
      · have hho : handle_ok cmdOf st = ({ st with running := false }, none) := by
          unfold handle_ok
          rw [if_neg (by tauto), if_pos hr]
        obtain ⟨i1, i2, i3, i4⟩ := ih (handle_ok cmdOf st).1 (by rw [hho]; exact hst)
        have hrun : (handle_ok cmdOf st).1.running = false := by rw [hho]
        have hlines : (handle_ok cmdOf st).1.program_lines = st.program_lines := by rw [hho]
        have hidx : (handle_ok cmdOf st).1.program_index = st.program_index := by rw [hho]
        refine ⟨by rw [i1, hlines], by rw [hidx] at i2; exact i2,
          by rw [hlines] at i3; exact i3, ?_⟩
        have hnil : (handle_ok cmdOf st).2 = none := by rw [hho]
        have hS : sendableFrom cmdOf st.program_lines
            (st.program_lines.length - st.program_index) st.program_index = 0 := by
          have hz : st.program_lines.length - st.program_index = 0 := by omega
          rw [hz]
          rfl
        rw [hnil]
        simp only [Option.toList_none, List.nil_append]
        rw [i4, hrun, hS, if_pos hr]
        simp
    · have hho : handle_ok cmdOf st = (st, none) := by
        unfold handle_ok
        rw [if_neg (by tauto), if_neg hr]
      have h1 : (handle_ok cmdOf st).1 = st := by rw [hho]
      have h2 : (handle_ok cmdOf st).2 = none := by rw [hho]
      obtain ⟨i1, i2, i3, i4⟩ := ih (handle_ok cmdOf st).1 (by rw [h1]; exact hst)
      rw [h1] at i1 i2 i3 i4
      refine ⟨by rw [h1]; exact i1, by rw [h1]; exact i2, by rw [h1]; exact i3, ?_⟩
      rw [h2]
      simp only [Option.toList_none, List.nil_append]
      rw [h1, i4, if_neg hr, if_neg hr]

end JobRunner

/-- C1: GRBL job streaming flow control (`poll_serial` Ok case and
`send_next_program_line`, `src/app.rs`): (1) each `ok` acknowledgment
preserves the program lines, never decreases the program index, keeps it
within `0 ≤ index ≤ len(lines)`, and transmits at most one line; (2)
starting a run and then processing `k` `ok` acknowledgments transmits
exactly `min (k+1) N` lines where `N` is the number of sendable lines —
blank lines and lines whose trimmed text starts with `;` or `(` are
stepped over without a send and without consuming an acknowledgment; (3)
in particular the run start plus `N` acknowledgments produce exactly `N`
send events. -/
theorem C1_job_runner_flow_control (cmdOf : ℕ → String) :
    (∀ st : JobRunner.JobState,
      st.program_index ≤ st.program_lines.length →
      (JobRunner.handle_ok cmdOf st).1.program_lines = st.program_lines ∧
      st.program_index ≤ (JobRunner.handle_ok cmdOf st).1.program_index ∧
      (JobRunner.handle_ok cmdOf st).1.program_index ≤ st.program_lines.length ∧
      (JobRunner.handle_ok cmdOf st).2.toList.length ≤ 1) ∧
    (∀ (lines : List String) (k : ℕ),
      ((JobRunner.run_start cmdOf lines).2.toList ++
        (JobRunner.driveOks cmdOf k (JobRunner.run_start cmdOf lines).1).2).length
        = min (k + 1) (JobRunner.sendableCount cmdOf lines)) ∧
    (∀ lines : List String,
      ((JobRunner.run_start cmdOf lines).2.toList ++
        (JobRunner.driveOks cmdOf (JobRunner.sendableCount cmdOf lines)
          (JobRunner.run_start cmdOf lines).1).2).length
        = JobRunner.sendableCount cmdOf lines) := by
  have hmain : ∀ (lines : List String) (k : ℕ),
      ((JobRunner.run_start cmdOf lines).2.toList ++
        (JobRunner.driveOks cmdOf k (JobRunner.run_start cmdOf lines).1).2).length
        = min (k + 1) (JobRunner.sendableCount cmdOf lines) := by
    intro lines k
    have hrs : JobRunner.run_start cmdOf lines =
        ({ program_lines := lines,
           program_index := (JobRunner.sendNextGo cmdOf lines (lines.length - 0) 0).1,
           running := true },
         (JobRunner.sendNextGo cmdOf lines (lines.length - 0) 0).2) := rfl
    obtain ⟨s1, s2, s3, s4⟩ := JobRunner.sendNextGo_spec cmdOf lines
      (lines.length - 0) 0 rfl (Nat.zero_le _)
    have hlines1 : (JobRunner.run_start cmdOf lines).1.program_lines = lines := by
      rw [hrs]
    have hrun1 : (JobRunner.run_start cmdOf lines).1.running = true := by rw [hrs]
    have hidx1 : (JobRunner.run_start cmdOf lines).1.program_index =
        (JobRunner.sendNextGo cmdOf lines (lines.length - 0) 0).1 := by rw [hrs]
    have hsc : JobRunner.sendableCount cmdOf lines =
        JobRunner.sendableFrom cmdOf lines (lines.length - 0) 0 := rfl
    by_cases hS : JobRunner.sendableFrom cmdOf lines (lines.length - 0) 0 = 0
    · obtain ⟨hnone, hend⟩ := s3 hS
      obtain ⟨d1, d2, d3, d4⟩ := JobRunner.driveOks_count cmdOf k
        (JobRunner.run_start cmdOf lines).1
        (by rw [hlines1, hidx1, hend])
      have hsnd : (JobRunner.run_start cmdOf lines).2 = none := by
        rw [hrs]; exact hnone
      rw [hsnd, hsc, hS]
      rw [hrun1, hlines1, hidx1, hend] at d4
      have h0 : JobRunner.sendableFrom cmdOf lines
          (lines.length - lines.length) lines.length = 0 := by
        rw [Nat.sub_self]
        rfl
      rw [if_pos rfl, h0] at d4
      simp only [Option.toList_none, List.nil_append, d4]
      omega
    · obtain ⟨hsome, hdec⟩ := s4 hS
      obtain ⟨d1, d2, d3, d4⟩ := JobRunner.driveOks_count cmdOf k
        (JobRunner.run_start cmdOf lines).1
        (by rw [hlines1, hidx1]; exact s2)
      have hsnd : (JobRunner.run_start cmdOf lines).2 =
          (JobRunner.sendNextGo cmdOf lines (lines.length - 0) 0).2 := by rw [hrs]
      have hone : (JobRunner.run_start cmdOf lines).2.toList.length = 1 := by
        rw [hsnd]
        obtain ⟨v, hv⟩ := Option.isSome_iff_exists.mp hsome
        simp only [Nat.sub_zero] at hv ⊢
        simp [hv]
      rw [hrun1, hlines1, hidx1, hdec] at d4
      rw [if_pos rfl] at d4
      rw [List.length_append, hone, d4, hsc]
      omega
  refine ⟨?_, hmain, ?_⟩
  · intro st hst
    obtain ⟨h1, h2, h3, h4⟩ := JobRunner.driveOks_count cmdOf 1 st hst
    have hd : JobRunner.driveOks cmdOf 1 st =
        ((JobRunner.handle_ok cmdOf st).1,
         (JobRunner.handle_ok cmdOf st).2.toList ++ []) := rfl
    rw [hd] at h1 h2 h3 h4
    refine ⟨h1, h2, h3, ?_⟩
    have h5 : ((JobRunner.handle_ok cmdOf st).2.toList ++ []).length ≤ 1 := by
      rw [h4]
      split <;> omega
    simpa using h5
  · intro lines
    rw [hmain lines (JobRunner.sendableCount cmdOf lines)]
    omega

/-- C1 witness: `C1_job_runner_flow_control` applied to the concrete
program `["G1 X1", "; pause", "G1 X2"]` (2 sendable lines): one `ok` from
index 0 keeps the invariants, and the run start plus 2 acknowledgments
send exactly 2 lines. -/
theorem C1_job_runner_flow_control_witness :
    ((JobRunner.handle_ok JobRunner.wCmd
        ⟨JobRunner.wLines, 0, true⟩).1.program_lines = JobRunner.wLines ∧
      0 ≤ (JobRunner.handle_ok JobRunner.wCmd
        ⟨JobRunner.wLines, 0, true⟩).1.program_index ∧
      (JobRunner.handle_ok JobRunner.wCmd
        ⟨JobRunner.wLines, 0, true⟩).1.program_index ≤ JobRunner.wLines.length ∧
      (JobRunner.handle_ok JobRunner.wCmd
        ⟨JobRunner.wLines, 0, true⟩).2.toList.length ≤ 1) ∧
    JobRunner.sendableCount JobRunner.wCmd JobRunner.wLines = 2 ∧
    ((JobRunner.run_start JobRunner.wCmd JobRunner.wLines).2.toList ++
      (JobRunner.driveOks JobRunner.wCmd 2
        (JobRunner.run_start JobRunner.wCmd JobRunner.wLines).1).2).length = 2 := by
  have hc : JobRunner.sendableCount JobRunner.wCmd JobRunner.wLines = 2 := by decide
  refine ⟨(C1_job_runner_flow_control JobRunner.wCmd).1
    ⟨JobRunner.wLines, 0, true⟩ (by decide), hc, ?_⟩
  have h := (C1_job_runner_flow_control JobRunner.wCmd).2.2 JobRunner.wLines
  rw [hc] at h
  exact h
